import Mathlib

/-
Verification of the govue snapshot-reconciliation engine.

This file gives a shallow embedding of the parts of the govue repository that
the claims are about:

  * the changeset engine (`CalcChangeset`, `coursesAsMap`, `diffCourseSets`,
    `diffCourseAssignments`, `CourseChange.diffAssignments`, `findCourse`,
    `gradebookSemestersMatch`) from the changeset source file;
  * `Gradebook.CurrentGradingPeriodIndex` and the `CurrentMark`-setting loop of
    `decodeStudentGrades`;
  * `CourseID.UnmarshalXMLAttr`, the course-title decoder built on the Go
    regexp `(.+?)\s*(\(.+?\))`.

Modelling conventions, used throughout:

  * Go `float64` fields are modelled as `ℚ`.  Every comparison the engine makes
    on them is exact (`!=`, `>` on differences, no epsilon), and the claims use
    values that are exactly representable, so rational arithmetic is faithful.
  * Go `map[K]*V` is modelled as an association list `List (K × V)` with
    insert-overwrite semantics (`alInsert`), first-match lookup (`alLookup`) and
    key removal (`alDelete`).  Go's map iteration order is unspecified; the
    model fixes it to insertion order.
  * Nil-able Go pointers that the engine dereferences are `Option`s, and code
    paths that would dereference nil (a runtime panic in Go) return `none`;
    `CalcChangeset` surfaces this as the `CalcResult.crash` constructor.
  * Struct fields that none of the modelled functions ever read (rooms,
    teachers, dates, XML plumbing, grade-summary categories) are omitted.
-/

set_option autoImplicit false

namespace Govue

/-! ## Association lists: the model of Go maps -/

/-- Insert-overwrite, the semantics of Go `m[k] = v`: replace the first binding
of `k` in place, or append a fresh binding at the end. -/
def alInsert {κ α : Type} [DecidableEq κ] : List (κ × α) → κ → α → List (κ × α)
  | [], k, v => [(k, v)]
  | (k', v') :: rest, k, v =>
      if k' = k then (k, v) :: rest else (k', v') :: alInsert rest k v

/-- Lookup, the semantics of Go `m[k]` (with `none` for a missing key). -/
def alLookup {κ α : Type} [DecidableEq κ] : List (κ × α) → κ → Option α
  | [], _ => none
  | (k', v') :: rest, k => if k' = k then some v' else alLookup rest k

/-- Key removal, the semantics of Go `delete(m, k)`. -/
def alDelete {κ α : Type} [DecidableEq κ] : List (κ × α) → κ → List (κ × α)
  | [], _ => []
  | (k', v') :: rest, k => if k' = k then rest else (k', v') :: alDelete rest k

/-- The keys of an association list. -/
def alKeys {κ α : Type} (m : List (κ × α)) : List κ := m.map Prod.fst

@[simp] theorem alKeys_nil {κ α : Type} : alKeys ([] : List (κ × α)) = [] := rfl

@[simp] theorem alKeys_cons {κ α : Type} (k : κ) (v : α) (rest : List (κ × α)) :
    alKeys ((k, v) :: rest) = k :: alKeys rest := rfl

@[simp] theorem alKeys_append {κ α : Type} (m n : List (κ × α)) :
    alKeys (m ++ n) = alKeys m ++ alKeys n := List.map_append _ m n

/-! ## Strings: the model of Go `strings.Contains` -/

/-- Boolean prefix test on character lists. -/
def isPrefixB : List Char → List Char → Bool
  | [], _ => true
  | _ :: _, [] => false
  | a :: as_, b :: bs_ => a == b && isPrefixB as_ bs_

/-- Does `sub` occur as a contiguous run inside `l`? -/
def containsSub : List Char → List Char → Bool
  | [], sub => isPrefixB sub []
  | c :: t, sub => isPrefixB sub (c :: t) || containsSub t sub

/-- Model of Go `strings.Contains s sub`. -/
def strContains (s sub : String) : Bool := containsSub s.data sub.data

/-! ## The gradebook snapshot model -/

/-- One grading period (`GradingPeriod` in the source); dates omitted. -/
structure GradingPeriod where
  index : Int
  name : String
  deriving DecidableEq, Repr

/-- `AssignmentScore`: `Graded`, `Score`, `PossibleScore`. -/
structure AssignmentScore where
  graded : Bool
  score : ℚ
  possibleScore : ℚ
  deriving DecidableEq, Repr

/-- `AssignmentPoints`: `Points`, `PossiblePoints`. -/
structure AssignmentPoints where
  points : ℚ
  possiblePoints : ℚ
  deriving DecidableEq, Repr

/-- An `Assignment`; only the fields the modelled functions read
(`GradebookID`, `Name`, `Score`, `Points`). -/
structure Assignment where
  gradebookID : String
  name : String
  score : AssignmentScore
  points : AssignmentPoints
  deriving DecidableEq, Repr

/-- A `CourseMark`; `GradeSummaries` omitted (never read by the engine). -/
structure CourseMark where
  name : String
  letterGrade : String
  rawGradeScore : ℚ
  assignments : List Assignment
  deriving DecidableEq, Repr

/-- A `CourseID`: the school's stable `ID` plus the display `Name`. -/
structure CourseID where
  id : String
  name : String
  deriving DecidableEq, Repr

/-- A `Course`; `Room`/`Teacher`/`TeacherEmail` omitted.  `currentMark` models
the nil-able `*CourseMark` pointer `CurrentMark`. -/
structure Course where
  period : Int
  id : CourseID
  marks : List CourseMark
  currentMark : Option CourseMark
  deriving DecidableEq, Repr

/-- A `Gradebook`.  `currentGradingPeriod` models the `*GradingPeriod` pointer;
the engine dereferences it unconditionally, so it is kept as a plain value. -/
structure Gradebook where
  gradingPeriods : List GradingPeriod
  currentGradingPeriod : GradingPeriod
  courses : List Course
  deriving DecidableEq, Repr

/-! ## Changeset output types -/

/-- `CourseSwitch`. -/
structure CourseSwitch where
  before : Course
  after : Course
  beforePeriod : Int
  afterPeriod : Int
  deriving DecidableEq, Repr

/-- `CourseGradeChange`. -/
structure CourseGradeChange where
  gradeIncrease : Bool
  previousLetterGrade : String
  newLetterGrade : String
  previousGradePct : ℚ
  newGradePct : ℚ
  deltaPct : ℚ
  deriving DecidableEq, Repr

/-- `CourseAssignmentChange`.  The source stores the full before/after `Score`
and `Points` structures through pointers; the model stores them by value. -/
structure CourseAssignmentChange where
  before : Assignment
  after : Assignment
  nameChange : Bool
  scoreChange : Bool
  pointsChange : Bool
  scoreIncrease : Bool
  possibleScoreChange : Bool
  pointsIncrease : Bool
  possiblePointsIncrease : Bool
  previousScore : AssignmentScore
  newScore : AssignmentScore
  previousPoints : AssignmentPoints
  newPoints : AssignmentPoints
  deriving DecidableEq, Repr

/-- `CourseChange`; `gradeChange` models the nil-able `*CourseGradeChange`. -/
structure CourseChange where
  course : Course
  gradeChange : Option CourseGradeChange
  assignmentChanges : List CourseAssignmentChange
  assignmentAdditions : List Assignment
  assignmentRemovals : List Assignment
  deriving DecidableEq, Repr

/-- The `Changeset`, including the unexported working state (`a`, `b`, `aMap`,
`bMap`) that the source keeps on the struct. -/
structure Changeset where
  a : Gradebook
  b : Gradebook
  aMap : List (Int × Course)
  bMap : List (Int × Course)
  courseSwitches : List CourseSwitch
  courseAdditions : List Course
  courseDrops : List Course
  courseChanges : List CourseChange
  deriving DecidableEq, Repr

/-- Result of `CalcChangeset`: the `(nil, SemesterMismatchError)` return, a Go
runtime panic (nil-pointer dereference), or a computed changeset. -/
inductive CalcResult where
  | semesterMismatch (aSemester bSemester : Int)
  | crash
  | ok (cs : Changeset)
  deriving DecidableEq, Repr

/-- True exactly on the semester-mismatch outcome. -/
def isSemesterMismatch : CalcResult → Bool
  | .semesterMismatch _ _ => true
  | _ => false

/-! ## The changeset engine -/

/-- `gradebookSemestersMatch`: the semester guard.  Returns
`(aSemester, bSemester, ok)`. -/
def gradebookSemestersMatch (a b : Gradebook) : Int × Int × Bool :=
  let aGradePeriod := a.currentGradingPeriod.name
  let bGradePeriod := b.currentGradingPeriod.name
  if strContains aGradePeriod "Q1" || strContains aGradePeriod "Q2" then
    if strContains bGradePeriod "Q3" || strContains bGradePeriod "Q4" then
      (1, 2, false)
    else (0, 0, true)
  else if strContains aGradePeriod "Q3" || strContains aGradePeriod "Q4" then
    if strContains bGradePeriod "Q1" || strContains bGradePeriod "Q2" then
      (2, 1, false)
    else (0, 0, true)
  else (0, 0, true)

/-- `coursesAsMap`: build the two period-keyed maps. -/
def coursesAsMap (acs bcs : List Course) : List (Int × Course) × List (Int × Course) :=
  (acs.foldl (fun m c => alInsert m c.period c) [],
   bcs.foldl (fun m c => alInsert m c.period c) [])

/-- `findCourse`: first course in the map whose stable ID is `id`, with its
key.  (Map iteration order modelled as list order.) -/
def findCourse : List (Int × Course) → String → Option (Course × Int)
  | [], _ => none
  | (k, c) :: rest, i => if c.id.id = i then some (c, k) else findCourse rest i

/-- The `findCourseSwitch` closure of `diffCourseSets`.  State is the changeset
(whose `bMap` the closure mutates) plus `normalizedBMap`; returns the `found`
flag. -/
def findCourseSwitchFn (cs : Changeset) (normB : List (Int × Course)) (p : Int)
    (ac : Course) : Changeset × List (Int × Course) × Bool :=
  match findCourse cs.bMap ac.id.id with
  | some (c, k) =>
      ({ cs with
          courseSwitches := cs.courseSwitches ++
            [{ before := ac, after := c, beforePeriod := ac.period, afterPeriod := c.period }],
          bMap := alDelete cs.bMap k },
       alInsert normB p c, true)
  | none => (cs, normB, false)

/-- One iteration of the first loop of `diffCourseSets` (over `aMap`).  In Go
the loop deletes at most the key currently being visited from `aMap`, so
iterating over the initial entry list is faithful. -/
def diffCourseSetsStep (st : Changeset × List (Int × Course)) (pc : Int × Course) :
    Changeset × List (Int × Course) :=
  let cs := st.1
  let normB := st.2
  let p := pc.1
  let ac := pc.2
  match alLookup cs.bMap p with
  | some bc =>
      if ac.id.id = bc.id.id then
        ({ cs with bMap := alDelete cs.bMap p }, alInsert normB p bc)
      else
        -- the source discards the result of findCourseSwitch on this branch
        let r := findCourseSwitchFn cs normB p ac
        (r.1, r.2.1)
  | none =>
      let r := findCourseSwitchFn cs normB p ac
      if r.2.2 then (r.1, r.2.1)
      else
        ({ r.1 with courseDrops := r.1.courseDrops ++ [ac], aMap := alDelete r.1.aMap p },
         r.2.1)

/-- One iteration of the second loop of `diffCourseSets` (over what is left of
`bMap`); the loop deletes only the visited key from `bMap`. -/
def diffCourseSetsStep2 (st : Changeset × List (Int × Course)) (pc : Int × Course) :
    Changeset × List (Int × Course) :=
  let cs := st.1
  let normB := st.2
  let p := pc.1
  let bc := pc.2
  match findCourse cs.aMap bc.id.id with
  | some (c, k) => ({ cs with bMap := alDelete cs.bMap p }, alInsert normB k c)
  | none =>
      ({ cs with courseAdditions := cs.courseAdditions ++ [bc], bMap := alDelete cs.bMap p },
       normB)

/-- `diffCourseSets`. -/
def Changeset.diffCourseSets (cs : Changeset) : Changeset :=
  let st1 := cs.aMap.foldl diffCourseSetsStep (cs, [])
  let st2 := st1.1.bMap.foldl diffCourseSetsStep2 st1
  { st2.1 with bMap := st2.2 }

/-- `CourseChange.diffAssignments`: pairwise diff of two same-ID assignments,
appending a change record unless nothing changed. -/
def CourseChange.diffAssignments (cc : CourseChange) (a b : Assignment) : CourseChange :=
  let nameChange := decide (a.name ≠ b.name)
  let scoreChange := decide (b.score.score - a.score.score ≠ 0)
  let possibleScoreChange := decide (b.score.possibleScore - a.score.possibleScore ≠ 0)
  let pointsChange := decide (b.points.points - a.points.points ≠ 0)
  let possiblePointsChange := decide (b.points.possiblePoints - a.points.possiblePoints ≠ 0)
  if !nameChange && !scoreChange && !possibleScoreChange && !pointsChange
      && !possiblePointsChange then
    cc
  else
    let scoreIncrease := decide (b.score.score - a.score.score > 0)
    let pointsIncrease := decide (b.points.points - a.points.points > 0)
    { cc with
        assignmentChanges := cc.assignmentChanges ++
          [{ before := a, after := b,
             nameChange := nameChange,
             scoreChange := scoreChange,
             pointsChange := pointsChange,
             scoreIncrease := scoreIncrease,
             possibleScoreChange := possibleScoreChange,
             pointsIncrease := pointsIncrease,
             possiblePointsIncrease := possiblePointsChange,
             previousScore := a.score, newScore := b.score,
             previousPoints := a.points, newPoints := b.points }] }

/-- Pass 1 of the assignment reconciliation: walk both lists positionally.  In
the source this is an index loop that reads `bAssignments[k]` and nils it out;
positions are read once in increasing order, so it is the simultaneous walk
below: matching-ID pairs are diffed, mismatching pairs are staged on both
sides, the `A` tail beyond the shorter length is staged (the
`bCount < aCount && k >= bCount` branch), and the unconsumed `B` tail is
returned for pass 2. -/
def pass1 (cc : CourseChange) (nfa nfb : List (String × Assignment)) :
    List Assignment → List Assignment →
    CourseChange × List (String × Assignment) × List (String × Assignment) × List Assignment
  | [], bs_ => (cc, nfa, nfb, bs_)
  | a :: as_, [] => pass1 cc (alInsert nfa a.gradebookID a) nfb as_ []
  | a :: as_, b :: bs_ =>
      if a.gradebookID = b.gradebookID then
        pass1 (cc.diffAssignments a b) nfa nfb as_ bs_
      else
        pass1 cc (alInsert nfa a.gradebookID a) (alInsert nfb b.gradebookID b) as_ bs_

/-- Pass 2: for each unconsumed `B`-list element, match it against the staged
`A` pool by `GradebookID`, else stage it.  (The source also nils the matched
array slot, which nothing reads afterwards.) -/
def pass2 (cc : CourseChange) (nfa nfb : List (String × Assignment)) :
    List Assignment → CourseChange × List (String × Assignment) × List (String × Assignment)
  | [] => (cc, nfa, nfb)
  | b :: rest =>
      match alLookup nfa b.gradebookID with
      | some a => pass2 (cc.diffAssignments a b) (alDelete nfa b.gradebookID) nfb rest
      | none => pass2 cc nfa (alInsert nfb b.gradebookID b) rest

/-- Pass 3: reconcile the leftover staged `A` pool against the staged `B`
pool; unmatched `A` entries become assignment removals. -/
def pass3 (cc : CourseChange) (nfb : List (String × Assignment)) :
    List (String × Assignment) → CourseChange × List (String × Assignment)
  | [] => (cc, nfb)
  | (gid, a) :: rest =>
      match alLookup nfb gid with
      | some b => pass3 (cc.diffAssignments a b) (alDelete nfb gid) rest
      | none => pass3 { cc with assignmentRemovals := cc.assignmentRemovals ++ [a] } nfb rest

/-- The per-course body of `diffCourseAssignments`, given the two dereferenced
current marks: the three passes, the addition sweep over the remaining staged
`B` pool, and the grade-delta check. -/
def diffCourseAssignmentsCourse (ac : Course) (am bm : CourseMark) : CourseChange :=
  let cc : CourseChange :=
    { course := ac, gradeChange := none, assignmentChanges := [],
      assignmentAdditions := [], assignmentRemovals := [] }
  let r1 := pass1 cc [] [] am.assignments bm.assignments
  let r2 := pass2 r1.1 r1.2.1 r1.2.2.1 r1.2.2.2
  let r3 := pass3 r2.1 r2.2.2 r2.2.1
  let cc := r3.1
  let cc := { cc with assignmentAdditions := cc.assignmentAdditions ++ r3.2.map Prod.snd }
  if bm.rawGradeScore - am.rawGradeScore ≠ 0 then
    { cc with
        gradeChange := some
          { gradeIncrease := decide (bm.rawGradeScore - am.rawGradeScore > 0),
            previousLetterGrade := am.letterGrade,
            newLetterGrade := bm.letterGrade,
            previousGradePct := am.rawGradeScore,
            newGradePct := bm.rawGradeScore,
            deltaPct := bm.rawGradeScore - am.rawGradeScore } }
  else cc

/-- The loop of `diffCourseAssignments` over `aMap`.  `bMap[p]` missing models
the nil `*Course` whose `CurrentMark` field access panics in Go, and a nil
`CurrentMark` on either side panics at the first field read; both are `none`
here. -/
def diffCourseAssignmentsGo : Changeset → List (Int × Course) → Option Changeset
  | cs, [] => some cs
  | cs, (p, ac) :: rest =>
      match alLookup cs.bMap p with
      | none => none
      | some bc =>
          match ac.currentMark, bc.currentMark with
          | some am, some bm =>
              let cc := diffCourseAssignmentsCourse ac am bm
              -- changed := len(additions) | len(changes) | len(removals)
              let changed := Nat.lor (Nat.lor cc.assignmentAdditions.length
                cc.assignmentChanges.length) cc.assignmentRemovals.length
              let cs' := if cc.gradeChange.isSome || decide (changed > 0) then
                  { cs with courseChanges := cs.courseChanges ++ [cc] }
                else cs
              diffCourseAssignmentsGo cs' rest
          | _, _ => none

/-- `diffCourseAssignments`. -/
def Changeset.diffCourseAssignments (cs : Changeset) : Option Changeset :=
  diffCourseAssignmentsGo cs cs.aMap

/-- `CalcChangeset`: the semester guard, then the course-set diff, then the
assignment diff. -/
def CalcChangeset (a b : Gradebook) : CalcResult :=
  match gradebookSemestersMatch a b with
  | (s1, s2, false) => .semesterMismatch s1 s2
  | (_, _, true) =>
      let ms := coursesAsMap a.courses b.courses
      let cs : Changeset :=
        { a := a, b := b, aMap := ms.1, bMap := ms.2,
          courseSwitches := [], courseAdditions := [], courseDrops := [],
          courseChanges := [] }
      let cs := cs.diffCourseSets
      match cs.diffCourseAssignments with
      | none => .crash
      | some cs => .ok cs

/-! ## Current grading-period index and `CurrentMark` selection -/

/-- The loop of `Gradebook.CurrentGradingPeriodIndex`: first grading period
whose name equals the current one gives `Index / 2` (Go `/` on `int` truncates
toward zero, which is `Int.tdiv`); otherwise fall through to `0`. -/
def currentIndexLoop (cur : String) : List GradingPeriod → Int
  | [] => 0
  | p :: ps => if p.name = cur then Int.tdiv p.index 2 else currentIndexLoop cur ps

/-- `Gradebook.CurrentGradingPeriodIndex`. -/
def Gradebook.CurrentGradingPeriodIndex (g : Gradebook) : Int :=
  currentIndexLoop g.currentGradingPeriod.name g.gradingPeriods

/-- Go `c.Marks[idx]`: a slice index, panicking (`none`) when out of range. -/
def markAt (ms : List CourseMark) (idx : Int) : Option CourseMark :=
  if idx < 0 then none else ms.get? idx.toNat

/-- The loop body of `decodeStudentGrades` applied to a course list:
`c.CurrentMark = c.Marks[gb.CurrentGradingPeriodIndex()]` for each course. -/
def setMarksLoop (idx : Int) : List Course → Option (List Course)
  | [] => some []
  | c :: cs =>
      match markAt c.marks idx with
      | none => none
      | some m =>
          match setMarksLoop idx cs with
          | none => none
          | some cs' => some ({ c with currentMark := some m } :: cs')

/-- The `CurrentMark`-setting loop of `decodeStudentGrades` (the surrounding
XML decoding is out of scope; the loop is what the claims are about). -/
def setCurrentMarks (g : Gradebook) : Option Gradebook :=
  match setMarksLoop g.CurrentGradingPeriodIndex g.courses with
  | none => none
  | some cs => some { g with courses := cs }

/-! ## The course-title decoder

`CourseID.UnmarshalXMLAttr` matches the Go regexp `(.+?)\s*(\(.+?\))` against
the title attribute with `FindStringSubmatch`.  Go's regexp package uses
leftmost-first (backtracking-preference) semantics, which for this pattern
resolve deterministically:

  * the overall match starts at the earliest position admitting a match;
  * group 1 (`.+?`, lazy, `.` excludes newline) takes the fewest characters;
  * `\s*` is greedy, but only the maximal whitespace run can be followed by
    the literal `(` of group 2, so it always takes the whole run
    (`\s` in RE2 is `[\t\n\f\r ]`);
  * group 2 (`\(.+?\)`) matches `(`, then lazily the fewest (≥ 1) non-newline
    characters up to the first `)`.

The functions below implement exactly this backtracking order. -/

/-- RE2 `\s`. -/
def reSpace (c : Char) : Bool :=
  c == ' ' || c == '\t' || c == '\n' || c == '\x0C' || c == '\r'

/-- Drop the maximal leading whitespace run (what `\s*` consumes). -/
def dropWS : List Char → List Char
  | [] => []
  | c :: cs => if reSpace c then dropWS cs else c :: cs

/-- The maximal leading whitespace run itself. -/
def takeWS : List Char → List Char
  | [] => []
  | c :: cs => if reSpace c then c :: takeWS cs else []

/-- The lazy `.+?\)` tail of group 2: grow the body one non-newline character
at a time until the first `)`.  `acc` holds the body read so far, reversed. -/
def scanClose : List Char → List Char → Option (List Char × List Char)
  | [], _ => none
  | c :: rest, acc =>
      if c = ')' then some (acc.reverse, rest)
      else if c = '\n' then none else scanClose rest (c :: acc)

/-- Match `\(.+?\)` at the head of the list: `(`, then at least one
non-newline character, lazily, then `)`.  Returns the group body and the
remainder of the input. -/
def group2At : List Char → Option (List Char × List Char)
  | [] => none
  | [_] => none
  | c :: c2 :: rest =>
      if c = '(' then (if c2 = '\n' then none else scanClose rest [c2]) else none

/-- Backtracking at a fixed start position: `g1rev` is the group-1 candidate
so far (reversed, nonempty).  Try `\s*(\(.+?\))` after it; on failure grow
group 1 by one non-newline character (the lazy order).  Returns
`(group1, whitespace run, group2 body)`. -/
def tryG1 : List Char → List Char → Option (List Char × List Char × List Char)
  | _, [] => none
  | g1rev, c :: rs =>
      match group2At (dropWS (c :: rs)) with
      | some (inner, _) => some (g1rev.reverse, takeWS (c :: rs), inner)
      | none => if c = '\n' then none else tryG1 (c :: g1rev) rs

/-- `FindStringSubmatch` of `(.+?)\s*(\(.+?\))`: try each start position left
to right; group 1 starts with one non-newline character. -/
def findSubmatch : List Char → Option (List Char × List Char × List Char)
  | [] => none
  | c :: rest => (if c = '\n' then none else tryG1 [c] rest) <|> findSubmatch rest

/-- `CourseID.UnmarshalXMLAttr`.  After the regexp produces
`name = [full, group1, group2]`, the source walks `name[1:]` looking for an
element bracketed by parentheses; the element's body becomes the ID and
`name[i]` (the PREVIOUS slice element: the full match for group 1, group 1
for group 2) becomes the course name.  An empty ID is a format error, as is a
failed regexp match. -/
def CourseID.UnmarshalXMLAttr (s : String) : Option CourseID :=
  match findSubmatch s.data with
  | none => none
  | some (g1, ws, inner) =>
      let g2 : List Char := '(' :: (inner ++ [')'])
      let full : List Char := g1 ++ ws ++ g2
      let pick : Option (List Char × List Char) :=
        if g1.head? = some '(' ∧ g1.getLast? = some ')' then
          some (g1.drop 1 |>.dropLast, full)
        else if g2.head? = some '(' ∧ g2.getLast? = some ')' then
          some (inner, g1)
        else none
      match pick with
      | none => none
      | some (idc, cnc) =>
          if idc.isEmpty then none else some { id := ⟨idc⟩, name := ⟨cnc⟩ }

/-- A well-formed parenthesized group somewhere in the character list: `(`,
then a nonempty newline-free body, then `)`. -/
def hasParenGroup (l : List Char) : Prop :=
  ∃ u v w, l = u ++ '(' :: (v ++ ')' :: w) ∧ v ≠ [] ∧ ∀ c ∈ v, c ≠ '\n'

/-- The `GradebookID`s of an assignment list. -/
def idsOf (l : List Assignment) : List String := l.map (fun a => a.gradebookID)

/-! ## Concrete instances used by counterexamples and witnesses -/

/-- A gradebook with the given current grading-period label and courses. -/
def gbWithLabel (label : String) (cs : List Course) : Gradebook :=
  { gradingPeriods := [], currentGradingPeriod := { index := 0, name := label },
    courses := cs }

/-- A mark with no assignments and raw grade 88. -/
def mark88 : CourseMark :=
  { name := "Q1 P1", letterGrade := "B+", rawGradeScore := 88, assignments := [] }

/-- Course with stable ID "X" at period 1. -/
def courseX : Course :=
  { period := 1, id := { id := "X", name := "Course X" }, marks := [mark88],
    currentMark := some mark88 }

/-- Course with stable ID "Y" at period 1 (same period as `courseX`). -/
def courseY : Course :=
  { period := 1, id := { id := "Y", name := "Course Y" }, marks := [mark88],
    currentMark := some mark88 }

/-- Course with stable ID "MATH201" at period 2. -/
def courseM2 : Course :=
  { period := 2, id := { id := "MATH201", name := "Math" }, marks := [mark88],
    currentMark := some mark88 }

/-- Course with stable ID "ENG101" at period 2 (same period as `courseM2`). -/
def courseE2 : Course :=
  { period := 2, id := { id := "ENG101", name := "English" }, marks := [mark88],
    currentMark := some mark88 }

def c1gbA : Gradebook := gbWithLabel "Q3Q1" []

def c1gbB : Gradebook := gbWithLabel "Q1" []

def c1wA : Gradebook := gbWithLabel "Q2 P2" []

def c1wB : Gradebook := gbWithLabel "Q3 P1" []

def c2gbS : Gradebook := gbWithLabel "Q2Q3 interim" [courseX]

def c2gbOk : Gradebook := gbWithLabel "Q1 P1" [courseX]

def c3gbOld : Gradebook := gbWithLabel "Q1" [courseX]

def c3gbNew : Gradebook := gbWithLabel "Q1" [courseY]

/-- The changeset state `CalcChangeset c3gbOld c3gbNew` builds before diffing. -/
def c3initialCS : Changeset :=
  { a := c3gbOld, b := c3gbNew,
    aMap := (coursesAsMap c3gbOld.courses c3gbNew.courses).1,
    bMap := (coursesAsMap c3gbOld.courses c3gbNew.courses).2,
    courseSwitches := [], courseAdditions := [], courseDrops := [],
    courseChanges := [] }

def c4gbOld : Gradebook := gbWithLabel "Q2" [courseM2]

def c4gbNew : Gradebook := gbWithLabel "Q2" [courseE2]

/-- Assignment builder: raw score `sc` out of `ps`, points equal to score. -/
def asg (gid nm : String) (sc ps : ℚ) : Assignment :=
  { gradebookID := gid, name := nm,
    score := { graded := true, score := sc, possibleScore := ps },
    points := { points := sc, possiblePoints := ps } }

def wG1 : Assignment := asg "g1" "HW1" 8 10

def wG2 : Assignment := asg "g2" "HW2" 5 5

def wMarkA : CourseMark :=
  { name := "P", letterGrade := "B", rawGradeScore := 88, assignments := [wG1, wG2] }

def wMarkB : CourseMark :=
  { name := "P", letterGrade := "B", rawGradeScore := 88, assignments := [wG2, wG1] }

/-- `wG1` regraded from 8/10 to 9/10 (points untouched). -/
def wG1to9 : Assignment :=
  { wG1 with score := { graded := true, score := 9, possibleScore := 10 } }

/-- An empty course-change record for `courseX`. -/
def emptyCCX : CourseChange :=
  { course := courseX, gradeChange := none, assignmentChanges := [],
    assignmentAdditions := [], assignmentRemovals := [] }

def c7markA : CourseMark :=
  { name := "P", letterGrade := "B+", rawGradeScore := 88, assignments := [] }

def c7markB : CourseMark :=
  { name := "P", letterGrade := "B", rawGradeScore := 85.5, assignments := [] }

def c9mark0 : CourseMark :=
  { name := "M0", letterGrade := "A", rawGradeScore := 95, assignments := [] }

def c9mark1 : CourseMark :=
  { name := "M1", letterGrade := "B", rawGradeScore := 85, assignments := [] }

def c9mark2 : CourseMark :=
  { name := "M2", letterGrade := "C", rawGradeScore := 75, assignments := [] }

def c9course : Course :=
  { period := 1, id := { id := "X", name := "Course X" },
    marks := [c9mark0, c9mark1, c9mark2], currentMark := none }

/-- Gradebook whose current grading period ("Q3 P2", index 5) is the second of
its periods, so the derived index is `5 / 2 = 2`. -/
def c9gb : Gradebook :=
  { gradingPeriods := [{ index := 0, name := "T1" }, { index := 5, name := "Q3 P2" }],
    currentGradingPeriod := { index := 5, name := "Q3 P2" },
    courses := [c9course] }

/-- `c9gb` after `setCurrentMarks`. -/
def c9gbAfter : Gradebook :=
  { c9gb with courses := [{ c9course with currentMark := some c9mark2 }] }

def c10gbA : Gradebook := gbWithLabel "Fall Semester" []

def c10gbB : Gradebook := gbWithLabel "Q4" []

/-! ## Basic lemmas about the pairwise assignment diff -/

theorem diffAssignments_self (cc : CourseChange) (a : Assignment) :
    cc.diffAssignments a a = cc := by
  simp [CourseChange.diffAssignments]

theorem diffAssignments_gradeChange (cc : CourseChange) (a b : Assignment) :
    (cc.diffAssignments a b).gradeChange = cc.gradeChange := by
  simp only [CourseChange.diffAssignments]
  split <;> rfl

theorem diffAssignments_additions (cc : CourseChange) (a b : Assignment) :
    (cc.diffAssignments a b).assignmentAdditions = cc.assignmentAdditions := by
  simp only [CourseChange.diffAssignments]
  split <;> rfl

theorem diffAssignments_removals (cc : CourseChange) (a b : Assignment) :
    (cc.diffAssignments a b).assignmentRemovals = cc.assignmentRemovals := by
  simp only [CourseChange.diffAssignments]
  split <;> rfl

theorem diffAssignments_course (cc : CourseChange) (a b : Assignment) :
    (cc.diffAssignments a b).course = cc.course := by
  simp only [CourseChange.diffAssignments]
  split <;> rfl

/-- The three passes taken together never touch `gradeChange`, and pass 1
never touches the addition/removal lists. -/
theorem pass1_cc_fields (as_ bs_ : List Assignment) : ∀ cc nfa nfb,
    (pass1 cc nfa nfb as_ bs_).1.gradeChange = cc.gradeChange ∧
    (pass1 cc nfa nfb as_ bs_).1.assignmentAdditions = cc.assignmentAdditions ∧
    (pass1 cc nfa nfb as_ bs_).1.assignmentRemovals = cc.assignmentRemovals := by
  induction as_ generalizing bs_ with
  | nil => intro cc nfa nfb; simp [pass1]
  | cons a as_ ih =>
      intro cc nfa nfb
      cases bs_ with
      | nil =>
          simpa [pass1] using ih [] cc (alInsert nfa a.gradebookID a) nfb
      | cons b bs_ =>
          by_cases h : a.gradebookID = b.gradebookID
          · have h3 := ih bs_ (cc.diffAssignments a b) nfa nfb
            simp only [diffAssignments_gradeChange, diffAssignments_additions,
              diffAssignments_removals] at h3
            simpa [pass1, h] using h3
          · simpa [pass1, h] using
              ih bs_ cc (alInsert nfa a.gradebookID a) (alInsert nfb b.gradebookID b)

theorem pass2_cc_fields (rem : List Assignment) : ∀ cc nfa nfb,
    (pass2 cc nfa nfb rem).1.gradeChange = cc.gradeChange ∧
    (pass2 cc nfa nfb rem).1.assignmentAdditions = cc.assignmentAdditions ∧
    (pass2 cc nfa nfb rem).1.assignmentRemovals = cc.assignmentRemovals := by
  induction rem with
  | nil => intro cc nfa nfb; simp [pass2]
  | cons b rem ih =>
      intro cc nfa nfb
      cases h : alLookup nfa b.gradebookID with
      | none => simpa [pass2, h] using ih cc nfa (alInsert nfb b.gradebookID b)
      | some a =>
          have := ih (cc.diffAssignments a b) (alDelete nfa b.gradebookID) nfb
          simp [pass2, h, diffAssignments_gradeChange, diffAssignments_additions,
            diffAssignments_removals] at this ⊢
          exact this

theorem pass3_cc_fields (nfaL : List (String × Assignment)) : ∀ cc nfb,
    (pass3 cc nfb nfaL).1.gradeChange = cc.gradeChange ∧
    (pass3 cc nfb nfaL).1.assignmentAdditions = cc.assignmentAdditions := by
  induction nfaL with
  | nil => intro cc nfb; simp [pass3]
  | cons pa nfaL ih =>
      intro cc nfb
      obtain ⟨gid, a⟩ := pa
      cases h : alLookup nfb gid with
      | none =>
          simpa [pass3, h] using
            ih { cc with assignmentRemovals := cc.assignmentRemovals ++ [a] } nfb
      | some b =>
          have := ih (cc.diffAssignments a b) (alDelete nfb gid)
          simp [pass3, h, diffAssignments_gradeChange,
            diffAssignments_additions] at this ⊢
          exact this

theorem pass1_gradeChange (as_ bs_ : List Assignment) (cc : CourseChange)
    (nfa nfb : List (String × Assignment)) :
    (pass1 cc nfa nfb as_ bs_).1.gradeChange = cc.gradeChange :=
  (pass1_cc_fields as_ bs_ cc nfa nfb).1

theorem pass1_additions (as_ bs_ : List Assignment) (cc : CourseChange)
    (nfa nfb : List (String × Assignment)) :
    (pass1 cc nfa nfb as_ bs_).1.assignmentAdditions = cc.assignmentAdditions :=
  (pass1_cc_fields as_ bs_ cc nfa nfb).2.1

theorem pass1_removals (as_ bs_ : List Assignment) (cc : CourseChange)
    (nfa nfb : List (String × Assignment)) :
    (pass1 cc nfa nfb as_ bs_).1.assignmentRemovals = cc.assignmentRemovals :=
  (pass1_cc_fields as_ bs_ cc nfa nfb).2.2

theorem pass2_gradeChange (rem : List Assignment) (cc : CourseChange)
    (nfa nfb : List (String × Assignment)) :
    (pass2 cc nfa nfb rem).1.gradeChange = cc.gradeChange :=
  (pass2_cc_fields rem cc nfa nfb).1

theorem pass2_additions (rem : List Assignment) (cc : CourseChange)
    (nfa nfb : List (String × Assignment)) :
    (pass2 cc nfa nfb rem).1.assignmentAdditions = cc.assignmentAdditions :=
  (pass2_cc_fields rem cc nfa nfb).2.1

theorem pass2_removals (rem : List Assignment) (cc : CourseChange)
    (nfa nfb : List (String × Assignment)) :
    (pass2 cc nfa nfb rem).1.assignmentRemovals = cc.assignmentRemovals :=
  (pass2_cc_fields rem cc nfa nfb).2.2

theorem pass3_gradeChange (nfaL : List (String × Assignment)) (cc : CourseChange)
    (nfb : List (String × Assignment)) :
    (pass3 cc nfb nfaL).1.gradeChange = cc.gradeChange :=
  (pass3_cc_fields nfaL cc nfb).1

theorem pass3_additions (nfaL : List (String × Assignment)) (cc : CourseChange)
    (nfb : List (String × Assignment)) :
    (pass3 cc nfb nfaL).1.assignmentAdditions = cc.assignmentAdditions :=
  (pass3_cc_fields nfaL cc nfb).2

/-- The per-course diff's `gradeChange` field is exactly the raw-grade delta
check; the three passes never touch it. -/
theorem diffCourse_gradeChange (ac : Course) (am bm : CourseMark) :
    (diffCourseAssignmentsCourse ac am bm).gradeChange =
      (if bm.rawGradeScore - am.rawGradeScore ≠ 0 then
        some { gradeIncrease := decide (bm.rawGradeScore - am.rawGradeScore > 0),
               previousLetterGrade := am.letterGrade,
               newLetterGrade := bm.letterGrade,
               previousGradePct := am.rawGradeScore,
               newGradePct := bm.rawGradeScore,
               deltaPct := bm.rawGradeScore - am.rawGradeScore }
      else none) := by
  unfold diffCourseAssignmentsCourse
  split
  · rfl
  · simp [pass3_gradeChange, pass2_gradeChange, pass1_gradeChange]

/-! ## Association-list lemmas -/

theorem alLookup_alDelete_ne {κ α : Type} [DecidableEq κ] (m : List (κ × α)) (k k' : κ)
    (h : k' ≠ k) : alLookup (alDelete m k) k' = alLookup m k' := by
  induction m with
  | nil => rfl
  | cons x rest ih =>
      obtain ⟨kx, vx⟩ := x
      by_cases hk : kx = k
      · subst hk
        simp [alDelete, alLookup, Ne.symm h]
      · by_cases hk' : kx = k'
        · subst hk'
          simp [alDelete, alLookup, hk]
        · simp [alDelete, alLookup, hk, hk', ih]

theorem alLookup_of_mem {κ α : Type} [DecidableEq κ] {m : List (κ × α)} {k : κ} {v : α}
    (hnd : (alKeys m).Nodup) (hm : (k, v) ∈ m) : alLookup m k = some v := by
  induction m with
  | nil => cases hm
  | cons x rest ih =>
      obtain ⟨kx, vx⟩ := x
      simp only [alKeys, List.map_cons, List.nodup_cons] at hnd
      rcases List.mem_cons.mp hm with h | h
      · obtain ⟨h1, h2⟩ := Prod.mk.injEq .. ▸ h
        cases h
        simp [alLookup]
      · have hk : kx ≠ k := by
          intro he
          exact hnd.1 (he ▸ (List.mem_map.mpr ⟨(k, v), h, rfl⟩))
        simp [alLookup, hk, ih hnd.2 h]

theorem mem_alInsert {κ α : Type} [DecidableEq κ] {m : List (κ × α)} {k : κ} {v : α}
    {pc : κ × α} (h : pc ∈ alInsert m k v) : pc = (k, v) ∨ pc ∈ m := by
  induction m with
  | nil => simpa [alInsert] using h
  | cons x rest ih =>
      obtain ⟨kx, vx⟩ := x
      by_cases hk : kx = k
      · subst hk
        rcases List.mem_cons.mp (by simpa [alInsert] using h) with h | h
        · exact Or.inl h
        · exact Or.inr (List.mem_cons_of_mem _ h)
      · rcases List.mem_cons.mp (by simpa [alInsert, hk] using h) with h | h
        · exact Or.inr (h ▸ List.mem_cons_self _ _)
        · rcases ih h with h | h
          · exact Or.inl h
          · exact Or.inr (List.mem_cons_of_mem _ h)

theorem alKeys_alInsert_mem {κ α : Type} [DecidableEq κ] (m : List (κ × α)) (k : κ) (v : α)
    (h : k ∈ alKeys m) : alKeys (alInsert m k v) = alKeys m := by
  induction m with
  | nil => simp at h
  | cons x rest ih =>
      obtain ⟨kx, vx⟩ := x
      by_cases hk : kx = k
      · subst hk
        simp [alInsert]
      · have h' : k ∈ alKeys rest := by
          rcases List.mem_cons.mp (by simpa using h) with h1 | h1
          · exact absurd h1.symm hk
          · exact h1
        simp [alInsert, hk, ih h']

theorem alKeys_alInsert_not_mem {κ α : Type} [DecidableEq κ] (m : List (κ × α)) (k : κ)
    (v : α) (h : k ∉ alKeys m) : alKeys (alInsert m k v) = alKeys m ++ [k] := by
  induction m with
  | nil => simp [alInsert]
  | cons x rest ih =>
      obtain ⟨kx, vx⟩ := x
      have hk : kx ≠ k := by
        intro he
        exact h (by simp [he])
      have h' : k ∉ alKeys rest := fun hc => h (by simp [hc])
      simp [alInsert, hk, ih h']

theorem alInsert_not_mem {κ α : Type} [DecidableEq κ] (m : List (κ × α)) (k : κ) (v : α)
    (h : k ∉ alKeys m) : alInsert m k v = m ++ [(k, v)] := by
  induction m with
  | nil => rfl
  | cons x rest ih =>
      obtain ⟨kx, vx⟩ := x
      have hk : kx ≠ k := by
        intro he
        exact h (by simp [he])
      have h' : k ∉ alKeys rest := fun hc => h (by simp [hc])
      simp [alInsert, hk, ih h']

/-- Building a map with insert-overwrite keeps the keys duplicate-free. -/
theorem coursesFold_nodup (l : List Course) : ∀ (m0 : List (Int × Course)),
    (alKeys m0).Nodup →
    (alKeys (l.foldl (fun m c => alInsert m c.period c) m0)).Nodup := by
  induction l with
  | nil => intro m0 h; simpa using h
  | cons c rest ih =>
      intro m0 h
      simp only [List.foldl_cons]
      apply ih
      by_cases hk : c.period ∈ alKeys m0
      · rw [alKeys_alInsert_mem m0 c.period c hk]; exact h
      · rw [alKeys_alInsert_not_mem m0 c.period c hk]
        simpa [List.nodup_append] using ⟨h, hk⟩

/-- Every entry of the built map comes from the seed or the course list. -/
theorem coursesFold_mem (l : List Course) : ∀ (m0 : List (Int × Course))
    (pc : Int × Course), pc ∈ l.foldl (fun m c => alInsert m c.period c) m0 →
    pc ∈ m0 ∨ pc.2 ∈ l := by
  induction l with
  | nil => intro m0 pc h; exact Or.inl h
  | cons c rest ih =>
      intro m0 pc h
      rcases ih _ pc h with h | h
      · rcases mem_alInsert h with h | h
        · exact Or.inr (by simp [h])
        · exact Or.inl h
      · exact Or.inr (List.mem_cons_of_mem _ h)

/-- Deleting every key of a duplicate-free map empties it. -/
theorem foldl_alDelete_self {κ α : Type} [DecidableEq κ] (m : List (κ × α))
    (hnd : (alKeys m).Nodup) :
    m.foldl (fun acc pc => alDelete acc pc.1) m = [] := by
  induction m with
  | nil => rfl
  | cons x rest ih =>
      obtain ⟨k, v⟩ := x
      simp only [alKeys, List.map_cons, List.nodup_cons] at hnd
      have hdel : alDelete ((k, v) :: rest) k = rest := by simp [alDelete]
      simpa [hdel] using ih hnd.2

/-- Re-inserting the entries of a duplicate-free map into a key-disjoint seed
appends them in order. -/
theorem foldl_alInsert_self {κ α : Type} [DecidableEq κ] (m : List (κ × α)) :
    ∀ (n : List (κ × α)), (alKeys n ++ alKeys m).Nodup →
    m.foldl (fun acc pc => alInsert acc pc.1 pc.2) n = n ++ m := by
  induction m with
  | nil => intro n _; simp
  | cons x rest ih =>
      obtain ⟨k, v⟩ := x
      intro n hnd
      have hk : k ∉ alKeys n := by
        intro hc
        have := (List.nodup_append.mp hnd).2.2
        exact this hc (by simp [alKeys])
      have h2 : (alKeys (n ++ [(k, v)]) ++ alKeys rest).Nodup := by
        have : alKeys (n ++ [(k, v)]) ++ alKeys rest = alKeys n ++ (k :: alKeys rest) := by
          simp [alKeys]
        rw [this]
        simpa [alKeys] using hnd
      simp only [List.foldl_cons]
      rw [alInsert_not_mem n k v hk, ih (n ++ [(k, v)]) h2]
      simp

/-! ## The no-op self diff -/

/-- Walking the first `diffCourseSets` loop over entries that all match their
own period and ID in `bMap`: every entry is paired, deleted from `bMap` and
recorded in `normalizedBMap`; nothing else changes. -/
theorem diffCourseSets_loop1_matched (e : List (Int × Course)) :
    ∀ (cs : Changeset) (normB : List (Int × Course)),
    (alKeys e).Nodup →
    (∀ pc ∈ e, alLookup cs.bMap pc.1 = some pc.2) →
    e.foldl diffCourseSetsStep (cs, normB) =
      ({ cs with bMap := e.foldl (fun m pc => alDelete m pc.1) cs.bMap },
       e.foldl (fun n pc => alInsert n pc.1 pc.2) normB) := by
  induction e with
  | nil => intro cs normB _ _; rfl
  | cons pc rest ih =>
      obtain ⟨p, ac⟩ := pc
      intro cs normB hnd hlk
      simp only [alKeys, List.map_cons, List.nodup_cons] at hnd
      have hstep : diffCourseSetsStep (cs, normB) (p, ac) =
          ({ cs with bMap := alDelete cs.bMap p }, alInsert normB p ac) := by
        have h1 : alLookup cs.bMap p = some ac := hlk (p, ac) (List.mem_cons_self _ _)
        simp [diffCourseSetsStep, h1]
      have hrest : ∀ pc ∈ rest,
          alLookup (alDelete cs.bMap p) pc.1 = some pc.2 := by
        intro pc hpc
        have hne : pc.1 ≠ p := by
          intro he
          exact hnd.1 (he ▸ (List.mem_map.mpr ⟨pc, hpc, rfl⟩))
        rw [alLookup_alDelete_ne cs.bMap p pc.1 hne]
        exact hlk pc (List.mem_cons_of_mem _ hpc)
      simp only [List.foldl_cons, hstep]
      exact ih { cs with bMap := alDelete cs.bMap p } (alInsert normB p ac) hnd.2 hrest

/-- `diffCourseSets` is the identity on a changeset whose two maps are the
same duplicate-free map. -/
theorem diffCourseSets_self (cs : Changeset) (h : cs.aMap = cs.bMap)
    (hnd : (alKeys cs.aMap).Nodup) : cs.diffCourseSets = cs := by
  obtain ⟨ga, gb, aM, bM, sw, ad, dr, ch⟩ := cs
  simp only at h hnd
  subst h
  unfold Changeset.diffCourseSets
  dsimp only
  have hlk : ∀ pc ∈ aM, alLookup aM pc.1 = some pc.2 := by
    intro pc hpc
    obtain ⟨p, c⟩ := pc
    exact alLookup_of_mem hnd hpc
  rw [diffCourseSets_loop1_matched aM
    { a := ga, b := gb, aMap := aM, bMap := aM, courseSwitches := sw,
      courseAdditions := ad, courseDrops := dr, courseChanges := ch } [] hnd hlk]
  have hdel : aM.foldl (fun m pc => alDelete m pc.1) aM = [] :=
    foldl_alDelete_self aM hnd
  have hins : aM.foldl (fun n pc => alInsert n pc.1 pc.2) [] = aM := by
    simpa using foldl_alInsert_self aM [] (by simpa using hnd)
  simp only [hdel, hins, List.foldl_nil]

/-- Pass 1 on two identical lists pairs everything positionally and leaves no
residue. -/
theorem pass1_diag (l : List Assignment) : ∀ (cc : CourseChange)
    (nfa nfb : List (String × Assignment)), pass1 cc nfa nfb l l = (cc, nfa, nfb, []) := by
  induction l with
  | nil => intro cc nfa nfb; rfl
  | cons a rest ih =>
      intro cc nfa nfb
      simp [pass1, diffAssignments_self, ih]

/-- The per-course diff of a mark against itself reports nothing. -/
theorem diffCourseAssignmentsCourse_self (ac : Course) (am : CourseMark) :
    diffCourseAssignmentsCourse ac am am =
      { course := ac, gradeChange := none, assignmentChanges := [],
        assignmentAdditions := [], assignmentRemovals := [] } := by
  simp [diffCourseAssignmentsCourse, pass1_diag, pass2, pass3]

/-- The assignment-diff loop over self-paired courses changes nothing. -/
theorem diffCourseAssignmentsGo_self (e : List (Int × Course)) : ∀ (cs : Changeset),
    (∀ pc ∈ e, alLookup cs.bMap pc.1 = some pc.2) →
    (∀ pc ∈ e, pc.2.currentMark.isSome = true) →
    diffCourseAssignmentsGo cs e = some cs := by
  induction e with
  | nil => intro cs _ _; rfl
  | cons pc rest ih =>
      obtain ⟨p, ac⟩ := pc
      intro cs hlk hmk
      have h1 : alLookup cs.bMap p = some ac := hlk (p, ac) (List.mem_cons_self _ _)
      obtain ⟨pp, idd, mks, cm⟩ := ac
      obtain ⟨am, rfl⟩ := Option.isSome_iff_exists.mp
        (hmk _ (List.mem_cons_self _ _))
      have hbody := diffCourseAssignmentsCourse_self ⟨pp, idd, mks, some am⟩ am
      simp only [diffCourseAssignmentsGo, h1, hbody]
      simpa using ih cs (fun pc h => hlk pc (List.mem_cons_of_mem _ h))
        (fun pc h => hmk pc (List.mem_cons_of_mem _ h))

/-! ## Assignment reconciliation under reordering -/

theorem alLookup_mem_keys {κ α : Type} [DecidableEq κ] {m : List (κ × α)} {k : κ}
    (h : k ∈ alKeys m) : ∃ v, alLookup m k = some v := by
  induction m with
  | nil => simp at h
  | cons x rest ih =>
      obtain ⟨kx, vx⟩ := x
      by_cases hk : kx = k
      · exact ⟨vx, by simp [alLookup, hk]⟩
      · have h' : k ∈ alKeys rest := by
          rcases List.mem_cons.mp (by simpa using h) with h1 | h1
          · exact absurd h1.symm hk
          · exact h1
        obtain ⟨v, hv⟩ := ih h'
        exact ⟨v, by simp [alLookup, hk, hv]⟩

theorem alKeys_alDelete {κ α : Type} [DecidableEq κ] (m : List (κ × α)) (k : κ) :
    alKeys (alDelete m k) = (alKeys m).erase k := by
  induction m with
  | nil => rfl
  | cons x rest ih =>
      obtain ⟨kx, vx⟩ := x
      by_cases hk : kx = k
      · subst hk
        simp [alDelete]
      · simp [alDelete, hk, List.erase_cons, ih]

/-- Pass 1 bookkeeping on equal-length lists with duplicate-free, pool-fresh
IDs: no tail residue is left, and there is a multiset `m` of positionally
matched IDs accounting for both staged pools. -/
theorem pass1_spec (as_ bs_ : List Assignment) : ∀ (cc : CourseChange)
    (nfa nfb : List (String × Assignment)),
    as_.length = bs_.length →
    (alKeys nfa ++ idsOf as_).Nodup →
    (alKeys nfb ++ idsOf bs_).Nodup →
    ∃ m : Multiset String,
      (pass1 cc nfa nfb as_ bs_).2.2.2 = [] ∧
      (alKeys (pass1 cc nfa nfb as_ bs_).2.1 : Multiset String) + m =
        (alKeys nfa : Multiset String) + (idsOf as_ : Multiset String) ∧
      (alKeys (pass1 cc nfa nfb as_ bs_).2.2.1 : Multiset String) + m =
        (alKeys nfb : Multiset String) + (idsOf bs_ : Multiset String) := by
  induction as_ generalizing bs_ with
  | nil =>
      intro cc nfa nfb hlen _ _
      have hb : bs_ = [] := List.length_eq_zero.mp hlen.symm
      subst hb
      exact ⟨0, rfl, by simp [idsOf, pass1], by simp [idsOf, pass1]⟩
  | cons a as_ ih =>
      intro cc nfa nfb hlen hA hB
      cases bs_ with
      | nil => simp at hlen
      | cons b bs_ =>
          have hlen' : as_.length = bs_.length := by simpa using hlen
          have hidA : idsOf (a :: as_) = a.gradebookID :: idsOf as_ := by simp [idsOf]
          have hidB : idsOf (b :: bs_) = b.gradebookID :: idsOf bs_ := by simp [idsOf]
          by_cases h : a.gradebookID = b.gradebookID
          · have hA' : (alKeys nfa ++ idsOf as_).Nodup := by
              rw [hidA] at hA
              exact hA.sublist ((List.sublist_cons_self _ _).append_left _)
            have hB' : (alKeys nfb ++ idsOf bs_).Nodup := by
              rw [hidB] at hB
              exact hB.sublist ((List.sublist_cons_self _ _).append_left _)
            obtain ⟨m, h1, h2, h3⟩ := ih bs_ (cc.diffAssignments a b) nfa nfb hlen' hA' hB'
            refine ⟨m + {a.gradebookID}, ?_, ?_, ?_⟩
            · simpa [pass1, h] using h1
            · have hgoal : (alKeys (pass1 (cc.diffAssignments a b) nfa nfb as_ bs_).2.1 :
                  Multiset String) + (m + {a.gradebookID}) =
                  (alKeys nfa : Multiset String) + ↑(idsOf (a :: as_)) := by
                rw [hidA, ← add_assoc, h2, ← Multiset.cons_coe, ← Multiset.singleton_add]
                abel
              simpa [pass1, h] using hgoal
            · have hgoal : (alKeys (pass1 (cc.diffAssignments a b) nfa nfb as_ bs_).2.2.1 :
                  Multiset String) + (m + {a.gradebookID}) =
                  (alKeys nfb : Multiset String) + ↑(idsOf (b :: bs_)) := by
                rw [hidB, ← add_assoc, h3, h, ← Multiset.cons_coe, ← Multiset.singleton_add]
                abel
              simpa [pass1, h] using hgoal
          · have hfA : a.gradebookID ∉ alKeys nfa := by
              rw [hidA] at hA
              have hd := (List.nodup_append.mp hA).2.2
              intro hc
              exact hd hc (List.mem_cons_self _ _)
            have hfB : b.gradebookID ∉ alKeys nfb := by
              rw [hidB] at hB
              have hd := (List.nodup_append.mp hB).2.2
              intro hc
              exact hd hc (List.mem_cons_self _ _)
            have hA' : (alKeys (alInsert nfa a.gradebookID a) ++ idsOf as_).Nodup := by
              rw [alKeys_alInsert_not_mem nfa _ a hfA, List.append_assoc]
              rw [hidA] at hA
              simpa using hA
            have hB' : (alKeys (alInsert nfb b.gradebookID b) ++ idsOf bs_).Nodup := by
              rw [alKeys_alInsert_not_mem nfb _ b hfB, List.append_assoc]
              rw [hidB] at hB
              simpa using hB
            obtain ⟨m, h1, h2, h3⟩ := ih bs_ cc
              (alInsert nfa a.gradebookID a) (alInsert nfb b.gradebookID b) hlen' hA' hB'
            refine ⟨m, ?_, ?_, ?_⟩
            · simpa [pass1, h] using h1
            · have hgoal : (alKeys (pass1 cc (alInsert nfa a.gradebookID a)
                  (alInsert nfb b.gradebookID b) as_ bs_).2.1 : Multiset String) + m =
                  (alKeys nfa : Multiset String) + ↑(idsOf (a :: as_)) := by
                rw [h2, alKeys_alInsert_not_mem nfa _ a hfA, hidA]
                simp only [← Multiset.coe_add, Multiset.coe_singleton,
                  ← Multiset.cons_coe, ← Multiset.singleton_add]
                abel
              simpa [pass1, h] using hgoal
            · have hgoal : (alKeys (pass1 cc (alInsert nfa a.gradebookID a)
                  (alInsert nfb b.gradebookID b) as_ bs_).2.2.1 : Multiset String) + m =
                  (alKeys nfb : Multiset String) + ↑(idsOf (b :: bs_)) := by
                rw [h3, alKeys_alInsert_not_mem nfb _ b hfB, hidB]
                simp only [← Multiset.coe_add, Multiset.coe_singleton,
                  ← Multiset.cons_coe, ← Multiset.singleton_add]
                abel
              simpa [pass1, h] using hgoal

/-- Pass 3 with staged pools carrying exactly the same duplicate-free ID sets
matches every entry: no removals are appended and the `B` pool is emptied. -/
theorem pass3_spec (nfaL : List (String × Assignment)) : ∀ (cc : CourseChange)
    (nfb : List (String × Assignment)),
    (alKeys nfaL).Nodup → (alKeys nfb).Nodup →
    (alKeys nfaL : Multiset String) = (alKeys nfb : Multiset String) →
    (pass3 cc nfb nfaL).1.assignmentRemovals = cc.assignmentRemovals ∧
    (pass3 cc nfb nfaL).2 = [] := by
  induction nfaL with
  | nil =>
      intro cc nfb _ _ heq
      have hk : alKeys nfb = [] := by
        have h0 : (alKeys nfb : Multiset String) = 0 := by simpa using heq.symm
        exact (Multiset.coe_eq_zero _).mp h0
      have : nfb = [] := List.map_eq_nil_iff.mp hk
      subst this
      exact ⟨rfl, rfl⟩
  | cons pa rest ih =>
      obtain ⟨gid, a⟩ := pa
      intro cc nfb hndA hndB heq
      have hmem : gid ∈ alKeys nfb := by
        have h1 : gid ∈ (alKeys nfb : Multiset String) := by
          rw [← heq]; simp
        simpa using h1
      obtain ⟨b, hb⟩ := alLookup_mem_keys hmem
      have hkeys : alKeys (alDelete nfb gid) = (alKeys nfb).erase gid :=
        alKeys_alDelete nfb gid
      have hndB' : (alKeys (alDelete nfb gid)).Nodup := by
        rw [hkeys]; exact hndB.erase gid
      have hndA' : (alKeys rest).Nodup := (List.nodup_cons.mp (by simpa using hndA)).2
      have heq' : (alKeys rest : Multiset String) = ↑(alKeys (alDelete nfb gid)) := by
        rw [hkeys, ← Multiset.coe_erase, ← heq]
        simp
      obtain ⟨ihrem, ihnfb⟩ := ih (cc.diffAssignments a b) (alDelete nfb gid) hndA' hndB' heq'
      constructor
      · have : (pass3 cc nfb ((gid, a) :: rest)).1 =
            (pass3 (cc.diffAssignments a b) (alDelete nfb gid) rest).1 := by
          simp [pass3, hb]
        rw [this, ihrem, diffAssignments_removals]
      · have : (pass3 cc nfb ((gid, a) :: rest)).2 =
            (pass3 (cc.diffAssignments a b) (alDelete nfb gid) rest).2 := by
          simp [pass3, hb]
        rw [this, ihnfb]

/-! ## Course-title decoder lemmas -/

theorem reSpace_paren : reSpace '(' = false := by decide

theorem scanClose_append (mid : List Char) : ∀ (rest acc : List Char),
    (∀ c ∈ mid, c ≠ ')' ∧ c ≠ '\n') →
    scanClose (mid ++ ')' :: rest) acc = some (acc.reverse ++ mid, rest) := by
  induction mid with
  | nil => intro rest acc _; simp [scanClose]
  | cons c mid ih =>
      intro rest acc hmid
      have hc := hmid c (List.mem_cons_self _ _)
      simp only [List.cons_append, scanClose, if_neg hc.1, if_neg hc.2, List.append_eq]
      rw [ih rest (c :: acc) (fun d hd => hmid d (List.mem_cons_of_mem _ hd))]
      simp

theorem group2At_exact (id rest : List Char) (hid : id ≠ [])
    (h2 : ∀ c ∈ id, c ≠ ')' ∧ c ≠ '\n') :
    group2At ('(' :: (id ++ ')' :: rest)) = some (id, rest) := by
  cases id with
  | nil => cases hid rfl
  | cons c id' =>
      have hc := h2 c (List.mem_cons_self _ _)
      simp only [List.cons_append, group2At, if_pos rfl, if_neg hc.2]
      rw [scanClose_append id' rest [c] (fun d hd => h2 d (List.mem_cons_of_mem _ hd))]
      simp

theorem group2At_ne_paren (x : Char) (xs : List Char) (h : x ≠ '(') :
    group2At (x :: xs) = none := by
  cases xs with
  | nil => rfl
  | cons y ys => simp [group2At, h]

theorem dropWS_append_ws (w : List Char) : ∀ (t : List Char),
    (∀ c ∈ w, reSpace c = true) → dropWS (w ++ t) = dropWS t := by
  induction w with
  | nil => intro t _; rfl
  | cons c w ih =>
      intro t hw
      have hc := hw c (List.mem_cons_self _ _)
      simp only [List.cons_append, dropWS, hc, if_pos]
      exact ih t (fun d hd => hw d (List.mem_cons_of_mem _ hd))

theorem dropWS_cons_nonspace (c : Char) (t : List Char) (h : reSpace c = false) :
    dropWS (c :: t) = c :: t := by
  simp [dropWS, h]

theorem takeWS_append (w : List Char) : ∀ (c : Char) (t : List Char),
    (∀ d ∈ w, reSpace d = true) → reSpace c = false →
    takeWS (w ++ c :: t) = w := by
  induction w with
  | nil => intro c t _ hc; simp [takeWS, hc]
  | cons d w ih =>
      intro c t hw hc
      have hd := hw d (List.mem_cons_self _ _)
      simp only [List.cons_append, takeWS, hd, if_pos, List.append_eq]
      rw [ih c t (fun e he => hw e (List.mem_cons_of_mem _ he)) hc]

theorem dropWS_first_nonspace (l : List Char) : ∀ (t : List Char),
    (∃ c ∈ l, reSpace c = false) →
    ∃ c l₂, c ∈ l ∧ reSpace c = false ∧ dropWS (l ++ t) = c :: (l₂ ++ t) := by
  induction l with
  | nil => intro t h; obtain ⟨c, hc, _⟩ := h; cases hc
  | cons x l ih =>
      intro t h
      cases hx : reSpace x with
      | false =>
          exact ⟨x, l, List.mem_cons_self _ _, hx, by simp [dropWS, hx]⟩
      | true =>
          have h' : ∃ c ∈ l, reSpace c = false := by
            obtain ⟨c, hc, hcf⟩ := h
            rcases List.mem_cons.mp hc with rfl | hc'
            · rw [hx] at hcf; cases hcf
            · exact ⟨c, hc', hcf⟩
          obtain ⟨c, l₂, hcl, hcf, hd⟩ := ih t h'
          refine ⟨c, l₂, List.mem_cons_of_mem _ hcl, hcf, ?_⟩
          simpa [dropWS, hx] using hd

theorem exists_nonspace_of_getLast (l : List Char) (hne : l ≠ [])
    (hlast : ∀ c, l.getLast? = some c → reSpace c = false) :
    ∃ c ∈ l, reSpace c = false :=
  ⟨l.getLast hne, List.getLast_mem hne, hlast _ (List.getLast?_eq_getLast l hne)⟩

theorem tryG1_of_group2 (g1rev rest inner r2 : List Char)
    (h : group2At (dropWS rest) = some (inner, r2)) (hne : rest ≠ []) :
    tryG1 g1rev rest = some (g1rev.reverse, takeWS rest, inner) := by
  cases rest with
  | nil => cases hne rfl
  | cons c rs => simp [tryG1, h]

theorem tryG1_spec (ws id rest0 : List Char) (hws : ∀ c ∈ ws, reSpace c = true)
    (hid : id ≠ []) (hid2 : ∀ c ∈ id, c ≠ ')' ∧ c ≠ '\n') :
    ∀ (suf g1rev : List Char), (∀ c ∈ suf, c ≠ '\n' ∧ c ≠ '(') →
    (∀ c, suf.getLast? = some c → reSpace c = false) →
    tryG1 g1rev (suf ++ (ws ++ '(' :: (id ++ ')' :: rest0))) =
      some (g1rev.reverse ++ suf, ws, id) := by
  intro suf
  induction suf with
  | nil =>
      intro g1rev _ _
      have hdrop : dropWS ([] ++ (ws ++ '(' :: (id ++ ')' :: rest0))) =
          '(' :: (id ++ ')' :: rest0) := by
        simp only [List.nil_append]
        rw [dropWS_append_ws ws _ hws, dropWS_cons_nonspace _ _ reSpace_paren]
      have hg2 : group2At (dropWS ([] ++ (ws ++ '(' :: (id ++ ')' :: rest0)))) =
          some (id, rest0) := by
        rw [hdrop]
        exact group2At_exact id rest0 hid hid2
      rw [tryG1_of_group2 g1rev _ id rest0 (by simpa using hg2) (by simp)]
      simp only [List.nil_append]
      rw [takeWS_append ws '(' _ hws reSpace_paren]
      simp
  | cons x suf ih =>
      intro g1rev hel hlast
      have hx : x ≠ '\n' := (hel x (List.mem_cons_self _ _)).1
      have hnsp : ∃ c ∈ (x :: suf), reSpace c = false :=
        exists_nonspace_of_getLast _ (List.cons_ne_nil _ _) hlast
      obtain ⟨c0, l₂, hc0mem, hc0, hd⟩ :=
        dropWS_first_nonspace (x :: suf) (ws ++ '(' :: (id ++ ')' :: rest0)) hnsp
      have hfail : group2At (dropWS (x :: (suf ++ (ws ++ '(' :: (id ++ ')' :: rest0))))) =
          none := by
        rw [show dropWS (x :: (suf ++ (ws ++ '(' :: (id ++ ')' :: rest0)))) =
            c0 :: (l₂ ++ (ws ++ '(' :: (id ++ ')' :: rest0))) from hd]
        exact group2At_ne_paren c0 _ ((hel c0 hc0mem).2)
      have hlast' : ∀ c, suf.getLast? = some c → reSpace c = false := by
        intro c hc
        cases suf with
        | nil => cases hc
        | cons y ys =>
            exact hlast c (by rw [List.getLast?_cons_cons]; exact hc)
      simp only [List.cons_append, tryG1, hfail, if_neg hx, List.append_eq]
      rw [ih (x :: g1rev) (fun c h => hel c (List.mem_cons_of_mem _ h)) hlast']
      simp

theorem dropWS_decomp (l : List Char) :
    ∃ w, (∀ c ∈ w, reSpace c = true) ∧ l = w ++ dropWS l := by
  induction l with
  | nil => exact ⟨[], by simp, rfl⟩
  | cons c l ih =>
      cases hc : reSpace c with
      | true =>
          obtain ⟨w, hw, he⟩ := ih
          refine ⟨c :: w, ?_, ?_⟩
          · intro d hd
            rcases List.mem_cons.mp hd with rfl | hd'
            · exact hc
            · exact hw d hd'
          · simp only [dropWS, hc, if_pos, List.cons_append]
            exact congrArg (c :: ·) he
      | false => exact ⟨[], by simp, by simp [dropWS, hc]⟩

theorem scanClose_some (t : List Char) : ∀ (acc res r : List Char),
    scanClose t acc = some (res, r) →
    ∃ mid, t = mid ++ ')' :: r ∧ res = acc.reverse ++ mid ∧ ∀ c ∈ mid, c ≠ '\n' := by
  induction t with
  | nil => intro acc res r h; cases h
  | cons c t ih =>
      intro acc res r h
      by_cases hc : c = ')'
      · subst hc
        have h' : res = acc.reverse ∧ r = t := by
          simpa [scanClose] using h.symm
        exact ⟨[], by simp [h'.2], by simp [h'.1], by simp⟩
      · by_cases hn : c = '\n'
        · simp [scanClose, hc, hn] at h
        · simp only [scanClose, if_neg hc, if_neg hn] at h
          obtain ⟨mid, h1, h2, h3⟩ := ih (c :: acc) res r h
          refine ⟨c :: mid, by simp [h1], by simpa using h2, ?_⟩
          intro d hd
          rcases List.mem_cons.mp hd with rfl | hd'
          · exact hn
          · exact h3 d hd'

theorem group2At_some (l inner r : List Char) (h : group2At l = some (inner, r)) :
    l = '(' :: (inner ++ ')' :: r) ∧ inner ≠ [] ∧ ∀ c ∈ inner, c ≠ '\n' := by
  cases l with
  | nil => cases h
  | cons x t =>
      cases t with
      | nil => cases h
      | cons y t' =>
          by_cases hx : x = '('
          · subst hx
            by_cases hy : y = '\n'
            · simp [group2At, hy] at h
            · simp only [group2At, if_pos rfl, if_neg hy] at h
              obtain ⟨mid, h1, h2, h3⟩ := scanClose_some t' [y] inner r h
              have h2' : inner = y :: mid := by simpa using h2
              refine ⟨by simp [h1, h2'], by simp [h2'], ?_⟩
              intro c hc
              rw [h2'] at hc
              rcases List.mem_cons.mp hc with rfl | hc'
              · exact hy
              · exact h3 c hc'
          · simp [group2At, hx] at h

theorem tryG1_some (rest : List Char) : ∀ (g1rev g1 ws inner : List Char),
    tryG1 g1rev rest = some (g1, ws, inner) →
    ∃ u r2, rest = u ++ '(' :: (inner ++ ')' :: r2) ∧ inner ≠ [] ∧
      ∀ c ∈ inner, c ≠ '\n' := by
  induction rest with
  | nil => intro g1rev g1 ws inner h; cases h
  | cons c rs ih =>
      intro g1rev g1 ws inner h
      cases hg : group2At (dropWS (c :: rs)) with
      | some pr =>
          obtain ⟨inner', r'⟩ := pr
          simp only [tryG1, hg, Option.some.injEq, Prod.mk.injEq] at h
          obtain ⟨w, hw, he⟩ := dropWS_decomp (c :: rs)
          obtain ⟨h1, h2, h3⟩ := group2At_some _ _ _ hg
          have hin : inner' = inner := h.2.2
          exact ⟨w, r', by rw [he, h1, hin], hin ▸ h2, hin ▸ h3⟩
      | none =>
          simp only [tryG1, hg] at h
          by_cases hc : c = '\n'
          · simp [hc] at h
          · rw [if_neg hc] at h
            obtain ⟨u, r2, h1, h2, h3⟩ := ih (c :: g1rev) g1 ws inner h
            exact ⟨c :: u, r2, by simp [h1], h2, h3⟩

theorem findSubmatch_some (l : List Char) : ∀ (g1 ws inner : List Char),
    findSubmatch l = some (g1, ws, inner) → hasParenGroup l := by
  induction l with
  | nil => intro _ _ _ h; cases h
  | cons c rs ih =>
      intro g1 ws inner h
      simp only [findSubmatch] at h
      cases hf : (if c = '\n' then none else tryG1 [c] rs) with
      | some v =>
          rw [hf] at h
          simp only [Option.some_orElse, Option.some.injEq] at h
          have htr : tryG1 [c] rs = some v := by
            by_cases hc : c = '\n'
            · simp [hc] at hf
            · simpa [hc] using hf
          obtain ⟨g1', ws', inner'⟩ := v
          have hv : g1' = g1 ∧ ws' = ws ∧ inner' = inner := by
            simpa [Prod.ext_iff] using h
          obtain ⟨u, r2, h1, h2, h3⟩ := tryG1_some rs [c] g1' ws' inner' htr
          exact ⟨c :: u, inner, r2, by simp [h1, hv.2.2.symm],
            hv.2.2 ▸ h2, hv.2.2 ▸ h3⟩
      | none =>
          rw [hf] at h
          simp only [Option.none_orElse] at h
          obtain ⟨u, v, w, h1, h2, h3⟩ := ih g1 ws inner h
          exact ⟨c :: u, v, w, by simp [h1], h2, h3⟩

/-! ## Semester-guard helper lemmas -/

theorem calcChangeset_of_guard_ok (A B : Gradebook)
    (h : gradebookSemestersMatch A B = (0, 0, true)) :
    isSemesterMismatch (CalcChangeset A B) = false := by
  have hm : ∀ o : Option Changeset,
      isSemesterMismatch
        (match o with | none => CalcResult.crash | some cs => CalcResult.ok cs) = false := by
    intro o; cases o <;> rfl
  unfold CalcChangeset
  rw [h]
  exact hm _

/-! ## Claim theorems -/

/-- Claim C6 (confirmed): a matched assignment pair `(a, b)` produces a
`CourseAssignmentChange` record if and only if at least one of `Name`,
`Score.Score`, `Score.PossibleScore`, `Points.Points`, `Points.PossiblePoints`
differs; the record carries both full before/after `Score` and `Points`
structures, with `scoreIncrease = (b.Score.Score - a.Score.Score) > 0` and
`pointsIncrease = (b.Points.Points - a.Points.Points) > 0`. -/
theorem c6_assignment_change_iff (cc : CourseChange) (a b : Assignment) :
    (¬(a.name ≠ b.name ∨ b.score.score ≠ a.score.score ∨
        b.score.possibleScore ≠ a.score.possibleScore ∨
        b.points.points ≠ a.points.points ∨
        b.points.possiblePoints ≠ a.points.possiblePoints) →
      cc.diffAssignments a b = cc) ∧
    ((a.name ≠ b.name ∨ b.score.score ≠ a.score.score ∨
        b.score.possibleScore ≠ a.score.possibleScore ∨
        b.points.points ≠ a.points.points ∨
        b.points.possiblePoints ≠ a.points.possiblePoints) →
      (cc.diffAssignments a b).assignmentChanges = cc.assignmentChanges ++
        [{ before := a, after := b,
           nameChange := decide (a.name ≠ b.name),
           scoreChange := decide (b.score.score - a.score.score ≠ 0),
           pointsChange := decide (b.points.points - a.points.points ≠ 0),
           scoreIncrease := decide (b.score.score - a.score.score > 0),
           possibleScoreChange := decide (b.score.possibleScore - a.score.possibleScore ≠ 0),
           pointsIncrease := decide (b.points.points - a.points.points > 0),
           possiblePointsIncrease := decide (b.points.possiblePoints - a.points.possiblePoints ≠ 0),
           previousScore := a.score, newScore := b.score,
           previousPoints := a.points, newPoints := b.points }]) := by
  constructor
  · intro h
    push_neg at h
    obtain ⟨h1, h2, h3, h4, h5⟩ := h
    simp [CourseChange.diffAssignments, h1, h2, h3, h4, h5]
  · intro h
    have hcond : (!decide (a.name ≠ b.name) &&
        !decide (b.score.score - a.score.score ≠ 0) &&
        !decide (b.score.possibleScore - a.score.possibleScore ≠ 0) &&
        !decide (b.points.points - a.points.points ≠ 0) &&
        !decide (b.points.possiblePoints - a.points.possiblePoints ≠ 0)) = false := by
      rcases h with h | h | h | h | h <;> simp [h, sub_ne_zero]
    simp only [CourseChange.diffAssignments, hcond, Bool.false_eq_true, if_false]

/-- Witness for C6 at the claim's concrete instance: an assignment scored 8/10
in the old snapshot and 9/10 in the new one yields a change record with
`scoreIncrease = true`, `scoreChange = true`, `possibleScoreChange = false`. -/
theorem c6_assignment_change_iff_witness :
    (emptyCCX.diffAssignments wG1 wG1to9).assignmentChanges =
      [{ before := wG1, after := wG1to9,
         nameChange := false, scoreChange := true, pointsChange := false,
         scoreIncrease := true, possibleScoreChange := false,
         pointsIncrease := false, possiblePointsIncrease := false,
         previousScore := wG1.score, newScore := wG1to9.score,
         previousPoints := wG1.points, newPoints := wG1to9.points }] := by
  have h := (c6_assignment_change_iff emptyCCX wG1 wG1to9).2
    (Or.inr (Or.inl (by norm_num [wG1, wG1to9, asg])))
  rw [h]
  norm_num [emptyCCX, wG1, wG1to9, asg]

/-- Claim C7 (confirmed): for every paired course the engine compares the
`RawGradeScore` of the current marks and emits a `CourseGradeChange` exactly
when the delta (new minus previous) is non-zero, with `deltaPct` the exact
delta, `gradeIncrease = (delta > 0)`, and the previous/new percentages and
letter grades; in particular 88.0 → 85.5 gives `deltaPct = -2.5` and
`gradeIncrease = false`. -/
theorem c7_grade_change_spec :
    (∀ (ac : Course) (am bm : CourseMark),
      (diffCourseAssignmentsCourse ac am bm).gradeChange =
        (if bm.rawGradeScore - am.rawGradeScore ≠ 0 then
          some { gradeIncrease := decide (bm.rawGradeScore - am.rawGradeScore > 0),
                 previousLetterGrade := am.letterGrade,
                 newLetterGrade := bm.letterGrade,
                 previousGradePct := am.rawGradeScore,
                 newGradePct := bm.rawGradeScore,
                 deltaPct := bm.rawGradeScore - am.rawGradeScore }
        else none)) ∧
    (diffCourseAssignmentsCourse courseX c7markA c7markB).gradeChange =
      some { gradeIncrease := false, previousLetterGrade := "B+",
             newLetterGrade := "B", previousGradePct := 88,
             newGradePct := 85.5, deltaPct := -2.5 } := by
  constructor
  · exact diffCourse_gradeChange
  · rw [diffCourse_gradeChange]
    norm_num [c7markA, c7markB]

/-- Claim C1 (counterexample): with the older snapshot's label "Q3Q1"
(containing "Q3") and the newer's "Q1" (containing "Q1"), the claim's
different-halves condition holds via its second disjunct, yet `CalcChangeset`
does not return a semester mismatch — the guard's first branch (label contains
"Q1"/"Q2") takes priority and passes. -/
theorem c1_counterexample :
    strContains c1gbA.currentGradingPeriod.name "Q3" = true ∧
    strContains c1gbB.currentGradingPeriod.name "Q1" = true ∧
    isSemesterMismatch (CalcChangeset c1gbA c1gbB) = false := by
  decide

/-- Claim C1 (corrected): if A's label contains "Q1" or "Q2" and B's contains
"Q3" or "Q4", `CalcChangeset` returns the semester-mismatch error carrying
semesters (1, 2); if A's label contains neither "Q1" nor "Q2" but contains
"Q3" or "Q4" and B's contains "Q1" or "Q2", it returns the error carrying
(2, 1).  In both cases no changeset is produced and no diffing occurs. -/
theorem c1_semester_guard_amended (A B : Gradebook) :
    ((strContains A.currentGradingPeriod.name "Q1" ||
        strContains A.currentGradingPeriod.name "Q2") = true →
      (strContains B.currentGradingPeriod.name "Q3" ||
        strContains B.currentGradingPeriod.name "Q4") = true →
      CalcChangeset A B = .semesterMismatch 1 2) ∧
    ((strContains A.currentGradingPeriod.name "Q1" ||
        strContains A.currentGradingPeriod.name "Q2") = false →
      (strContains A.currentGradingPeriod.name "Q3" ||
        strContains A.currentGradingPeriod.name "Q4") = true →
      (strContains B.currentGradingPeriod.name "Q1" ||
        strContains B.currentGradingPeriod.name "Q2") = true →
      CalcChangeset A B = .semesterMismatch 2 1) := by
  constructor
  · intro hA hB
    unfold CalcChangeset gradebookSemestersMatch
    dsimp only
    simp [hA, hB]
  · intro hA1 hA2 hB
    unfold CalcChangeset gradebookSemestersMatch
    dsimp only
    simp [hA1, hA2, hB]

/-- Witness for C1's amended guard at labels "Q2 P2" / "Q3 P1". -/
theorem c1_semester_guard_amended_witness :
    CalcChangeset c1wA c1wB = .semesterMismatch 1 2 :=
  (c1_semester_guard_amended c1wA c1wB).1 (by decide) (by decide)

/-- Claim C10 (confirmed): if either gradebook's current grading-period label
contains none of "Q1", "Q2", "Q3", "Q4", the semester guard passes and
`CalcChangeset` never returns a semester mismatch; moreover the guard is a
function of just those eight substring tests. -/
theorem c10_guard_only_quarters (A B A2 B2 : Gradebook) :
    (((strContains A.currentGradingPeriod.name "Q1" = false ∧
        strContains A.currentGradingPeriod.name "Q2" = false ∧
        strContains A.currentGradingPeriod.name "Q3" = false ∧
        strContains A.currentGradingPeriod.name "Q4" = false) ∨
      (strContains B.currentGradingPeriod.name "Q1" = false ∧
        strContains B.currentGradingPeriod.name "Q2" = false ∧
        strContains B.currentGradingPeriod.name "Q3" = false ∧
        strContains B.currentGradingPeriod.name "Q4" = false)) →
      gradebookSemestersMatch A B = (0, 0, true) ∧
      isSemesterMismatch (CalcChangeset A B) = false) ∧
    ((strContains A.currentGradingPeriod.name "Q1" =
        strContains A2.currentGradingPeriod.name "Q1" ∧
      strContains A.currentGradingPeriod.name "Q2" =
        strContains A2.currentGradingPeriod.name "Q2" ∧
      strContains A.currentGradingPeriod.name "Q3" =
        strContains A2.currentGradingPeriod.name "Q3" ∧
      strContains A.currentGradingPeriod.name "Q4" =
        strContains A2.currentGradingPeriod.name "Q4" ∧
      strContains B.currentGradingPeriod.name "Q1" =
        strContains B2.currentGradingPeriod.name "Q1" ∧
      strContains B.currentGradingPeriod.name "Q2" =
        strContains B2.currentGradingPeriod.name "Q2" ∧
      strContains B.currentGradingPeriod.name "Q3" =
        strContains B2.currentGradingPeriod.name "Q3" ∧
      strContains B.currentGradingPeriod.name "Q4" =
        strContains B2.currentGradingPeriod.name "Q4") →
      gradebookSemestersMatch A B = gradebookSemestersMatch A2 B2) := by
  constructor
  · intro h
    have hg : gradebookSemestersMatch A B = (0, 0, true) := by
      unfold gradebookSemestersMatch
      rcases h with ⟨h1, h2, h3, h4⟩ | ⟨h1, h2, h3, h4⟩
      · simp [h1, h2, h3, h4]
      · simp only [h1, h2, h3, h4]
        split <;> simp
    exact ⟨hg, calcChangeset_of_guard_ok A B hg⟩
  · intro ⟨h1, h2, h3, h4, h5, h6, h7, h8⟩
    unfold gradebookSemestersMatch
    dsimp only
    rw [h1, h2, h3, h4, h5, h6, h7, h8]

/-- Witness for C10: label "Fall Semester" contains no quarter marker, so
diffing "Fall Semester" against "Q4" passes the guard. -/
theorem c10_guard_only_quarters_witness :
    gradebookSemestersMatch c10gbA c10gbB = (0, 0, true) ∧
    isSemesterMismatch (CalcChangeset c10gbA c10gbB) = false :=
  (c10_guard_only_quarters c10gbA c10gbB c10gbA c10gbB).1 (Or.inl (by decide))

/-- Claim C2 (counterexample): a fully-populated gradebook (every course has
`CurrentMark` set) whose current grading-period label contains both "Q2" and
"Q3" fails its own self-diff: the semester guard reports a mismatch instead of
producing the empty changeset the claim requires. -/
theorem c2_counterexample :
    c2gbS.courses.all (fun c => c.currentMark.isSome) = true ∧
    CalcChangeset c2gbS c2gbS = .semesterMismatch 1 2 := by
  decide

/-- Claim C2 (corrected): for every gradebook `S` with `CurrentMark` set on
each course and whose current grading-period label does not contain both a
first-half marker ("Q1"/"Q2") and a second-half marker ("Q3"/"Q4"),
`CalcChangeset S S` succeeds and yields a changeset whose `CourseSwitches`,
`CourseAdditions`, `CourseDrops` and `CourseChanges` are all empty. -/
theorem c2_selfdiff_empty_amended (S : Gradebook)
    (hmk : ∀ c ∈ S.courses, c.currentMark.isSome = true)
    (hsem : ¬((strContains S.currentGradingPeriod.name "Q1" = true ∨
               strContains S.currentGradingPeriod.name "Q2" = true) ∧
              (strContains S.currentGradingPeriod.name "Q3" = true ∨
               strContains S.currentGradingPeriod.name "Q4" = true))) :
    ∃ cs, CalcChangeset S S = .ok cs ∧ cs.courseSwitches = [] ∧
      cs.courseAdditions = [] ∧ cs.courseDrops = [] ∧ cs.courseChanges = [] := by
  have hguard : gradebookSemestersMatch S S = (0, 0, true) := by
    unfold gradebookSemestersMatch
    dsimp only
    by_cases h12 : (strContains S.currentGradingPeriod.name "Q1" ||
        strContains S.currentGradingPeriod.name "Q2") = true
    · cases h34 : (strContains S.currentGradingPeriod.name "Q3" ||
          strContains S.currentGradingPeriod.name "Q4") with
      | false => simp [h12, h34]
      | true =>
          simp only [Bool.or_eq_true] at h12 h34
          exact absurd ⟨h12, h34⟩ hsem
    · have h12f : (strContains S.currentGradingPeriod.name "Q1" ||
          strContains S.currentGradingPeriod.name "Q2") = false := by
        simpa using h12
      cases h34 : (strContains S.currentGradingPeriod.name "Q3" ||
          strContains S.currentGradingPeriod.name "Q4") <;> simp [h12f, h34]
  have hnd : (alKeys (S.courses.foldl (fun m c => alInsert m c.period c) [])).Nodup :=
    coursesFold_nodup S.courses [] (by simp)
  refine ⟨{ a := S, b := S,
            aMap := S.courses.foldl (fun m c => alInsert m c.period c) [],
            bMap := S.courses.foldl (fun m c => alInsert m c.period c) [],
            courseSwitches := [], courseAdditions := [], courseDrops := [],
            courseChanges := [] }, ?_, rfl, rfl, rfl, rfl⟩
  unfold CalcChangeset
  rw [hguard]
  dsimp only
  have hsets : Changeset.diffCourseSets
      { a := S, b := S,
        aMap := S.courses.foldl (fun m c => alInsert m c.period c) [],
        bMap := S.courses.foldl (fun m c => alInsert m c.period c) [],
        courseSwitches := [], courseAdditions := [], courseDrops := [],
        courseChanges := [] } =
      { a := S, b := S,
        aMap := S.courses.foldl (fun m c => alInsert m c.period c) [],
        bMap := S.courses.foldl (fun m c => alInsert m c.period c) [],
        courseSwitches := [], courseAdditions := [], courseDrops := [],
        courseChanges := [] } :=
    diffCourseSets_self _ rfl hnd
  have hlk : ∀ pc ∈ S.courses.foldl (fun m c => alInsert m c.period c) [],
      alLookup (S.courses.foldl (fun m c => alInsert m c.period c) []) pc.1 =
        some pc.2 := by
    intro pc hpc
    obtain ⟨p, c⟩ := pc
    exact alLookup_of_mem hnd hpc
  have hmk2 : ∀ pc ∈ S.courses.foldl (fun m c => alInsert m c.period c) [],
      pc.2.currentMark.isSome = true := by
    intro pc hpc
    rcases coursesFold_mem S.courses [] pc hpc with h0 | h0
    · cases h0
    · exact hmk pc.2 h0
  have hgo := diffCourseAssignmentsGo_self
    (S.courses.foldl (fun m c => alInsert m c.period c) [])
    { a := S, b := S,
      aMap := S.courses.foldl (fun m c => alInsert m c.period c) [],
      bMap := S.courses.foldl (fun m c => alInsert m c.period c) [],
      courseSwitches := [], courseAdditions := [], courseDrops := [],
      courseChanges := [] } hlk hmk2
  show (match Changeset.diffCourseAssignments _ with
    | none => CalcResult.crash
    | some cs => CalcResult.ok cs) = _
  rw [show Changeset.diffCourseSets
      { a := S, b := S,
        aMap := (coursesAsMap S.courses S.courses).1,
        bMap := (coursesAsMap S.courses S.courses).2,
        courseSwitches := [], courseAdditions := [], courseDrops := [],
        courseChanges := [] } =
      { a := S, b := S,
        aMap := S.courses.foldl (fun m c => alInsert m c.period c) [],
        bMap := S.courses.foldl (fun m c => alInsert m c.period c) [],
        courseSwitches := [], courseAdditions := [], courseDrops := [],
        courseChanges := [] } from hsets]
  rw [show Changeset.diffCourseAssignments
      { a := S, b := S,
        aMap := S.courses.foldl (fun m c => alInsert m c.period c) [],
        bMap := S.courses.foldl (fun m c => alInsert m c.period c) [],
        courseSwitches := [], courseAdditions := [], courseDrops := [],
        courseChanges := [] } = some _ from hgo]

/-- Witness for C2's amended self-diff at a concrete populated gradebook with
label "Q1 P1". -/
theorem c2_selfdiff_empty_amended_witness :
    ∃ cs, CalcChangeset c2gbOk c2gbOk = .ok cs ∧ cs.courseSwitches = [] ∧
      cs.courseAdditions = [] ∧ cs.courseDrops = [] ∧ cs.courseChanges = [] :=
  c2_selfdiff_empty_amended c2gbOk (by decide) (by decide)

/-- Claim C5 (confirmed): for every paired course whose two current-mark
assignment lists hold the same assignments (distinct `GradebookID`s) in
different orders — any permutation — the reconciliation produces zero
`AssignmentAdditions` and zero `AssignmentRemovals`: every assignment is
matched to its same-ID counterpart across positions. -/
theorem c5_reorder_no_adds_removes (ac : Course) (am bm : CourseMark)
    (hperm : am.assignments.Perm bm.assignments)
    (hnd : (idsOf am.assignments).Nodup) :
    (diffCourseAssignmentsCourse ac am bm).assignmentAdditions = [] ∧
    (diffCourseAssignmentsCourse ac am bm).assignmentRemovals = [] := by
  have hlen : am.assignments.length = bm.assignments.length := hperm.length_eq
  have hidperm : (idsOf am.assignments).Perm (idsOf bm.assignments) := hperm.map _
  have hndB : (idsOf bm.assignments).Nodup := hidperm.nodup_iff.mp hnd
  obtain ⟨m, hrem, h2, h3⟩ := pass1_spec am.assignments bm.assignments
    { course := ac, gradeChange := none, assignmentChanges := [],
      assignmentAdditions := [], assignmentRemovals := [] } [] []
    hlen (by simpa using hnd) (by simpa using hndB)
  have hcc1add := pass1_additions am.assignments bm.assignments
    { course := ac, gradeChange := none, assignmentChanges := [],
      assignmentAdditions := [], assignmentRemovals := [] } [] []
  have hcc1rem := pass1_removals am.assignments bm.assignments
    { course := ac, gradeChange := none, assignmentChanges := [],
      assignmentAdditions := [], assignmentRemovals := [] } [] []
  simp only [alKeys_nil, Multiset.coe_nil, zero_add] at h2 h3
  have hideq : (idsOf am.assignments : Multiset String) = ↑(idsOf bm.assignments) :=
    Multiset.coe_eq_coe.mpr hidperm
  have hkeyeq := add_right_cancel (h2.trans (hideq.trans h3.symm))
  have hndA1 : (alKeys (pass1
      { course := ac, gradeChange := none, assignmentChanges := [],
        assignmentAdditions := [], assignmentRemovals := [] }
      [] [] am.assignments bm.assignments).2.1).Nodup := by
    have hle := Multiset.le_iff_exists_add.mpr ⟨m, h2.symm⟩
    exact_mod_cast Multiset.nodup_of_le hle (by exact_mod_cast hnd)
  have hndB1 : (alKeys (pass1
      { course := ac, gradeChange := none, assignmentChanges := [],
        assignmentAdditions := [], assignmentRemovals := [] }
      [] [] am.assignments bm.assignments).2.2.1).Nodup := by
    have hle := Multiset.le_iff_exists_add.mpr ⟨m, h3.symm⟩
    exact_mod_cast Multiset.nodup_of_le hle (by exact_mod_cast hndB)
  obtain ⟨hprem, hpnfb⟩ := pass3_spec
    (pass1
      { course := ac, gradeChange := none, assignmentChanges := [],
        assignmentAdditions := [], assignmentRemovals := [] }
      [] [] am.assignments bm.assignments).2.1
    (pass1
      { course := ac, gradeChange := none, assignmentChanges := [],
        assignmentAdditions := [], assignmentRemovals := [] }
      [] [] am.assignments bm.assignments).1
    (pass1
      { course := ac, gradeChange := none, assignmentChanges := [],
        assignmentAdditions := [], assignmentRemovals := [] }
      [] [] am.assignments bm.assignments).2.2.1
    hndA1 hndB1 hkeyeq
  constructor
  · simp only [diffCourseAssignmentsCourse, hrem, pass2]
    split <;> simp [pass3_additions, hcc1add, hpnfb]
  · simp only [diffCourseAssignmentsCourse, hrem, pass2]
    split <;> simp [hprem, hcc1rem]

/-- Witness for C5 at the claim's concrete instance: `[g1, g2]` in the old
snapshot versus `[g2, g1]` in the new one (identical content per ID). -/
theorem c5_reorder_no_adds_removes_witness :
    (diffCourseAssignmentsCourse courseX wMarkA wMarkB).assignmentAdditions = [] ∧
    (diffCourseAssignmentsCourse courseX wMarkA wMarkB).assignmentRemovals = [] :=
  c5_reorder_no_adds_removes courseX wMarkA wMarkB (by decide) (by decide)

theorem currentIndexLoop_spec (cur : String) (ps : List GradingPeriod) :
    (ps.find? (fun p => p.name == cur) = none → currentIndexLoop cur ps = 0) ∧
    (∀ p, ps.find? (fun p => p.name == cur) = some p →
      currentIndexLoop cur ps = Int.tdiv p.index 2) := by
  induction ps with
  | nil => exact ⟨fun _ => rfl, fun p hp => by cases hp⟩
  | cons q ps ih =>
      constructor
      · intro h
        cases hq : (q.name == cur) with
        | true => simp [List.find?, hq] at h
        | false =>
            simp only [List.find?, hq] at h
            have hne : q.name ≠ cur := by simpa using hq
            simp [currentIndexLoop, hne, ih.1 h]
      · intro p hp
        cases hq : (q.name == cur) with
        | true =>
            simp only [List.find?, hq, Option.some.injEq] at hp
            subst hp
            have heq : q.name = cur := by simpa using hq
            simp [currentIndexLoop, heq]
        | false =>
            simp only [List.find?, hq] at hp
            have hne : q.name ≠ cur := by simpa using hq
            simp [currentIndexLoop, hne, ih.2 p hp]

theorem setMarksLoop_spec (idx : Int) (cs : List Course) : ∀ cs2,
    setMarksLoop idx cs = some cs2 → ∀ i c', cs2.get? i = some c' →
    ∃ c, cs.get? i = some c ∧ ∃ mrk, markAt c.marks idx = some mrk ∧
      c' = { c with currentMark := some mrk } := by
  induction cs with
  | nil =>
      intro cs2 h i c' hc'
      simp only [setMarksLoop, Option.some.injEq] at h
      subst h
      simp at hc'
  | cons c cs ihc =>
      intro cs2 h i c' hc'
      cases hm : markAt c.marks idx with
      | none => simp [setMarksLoop, hm] at h
      | some mrk =>
          cases hrec : setMarksLoop idx cs with
          | none => simp [setMarksLoop, hm, hrec] at h
          | some cs3 =>
              simp only [setMarksLoop, hm, hrec, Option.some.injEq] at h
              subst h
              cases i with
              | zero =>
                  refine ⟨c, rfl, mrk, hm, ?_⟩
                  simpa using hc'.symm
              | succ i =>
                  obtain ⟨c0, hc0, mrk0, hm0, hceq⟩ := ihc cs3 hrec i c' (by simpa using hc')
                  exact ⟨c0, by simpa using hc0, mrk0, hm0, hceq⟩

/-- Claim C8 (counterexample): on "Algebra (Honors) (ALG2-01)" the claim
demands the contents of the LAST parenthesized group (`ID "ALG2-01"`,
`Name "Algebra (Honors)"`); the decoder's lazy leftmost-first regexp takes the
FIRST group: `ID "Honors"`, `Name "Algebra"`. -/
theorem c8_counterexample :
    CourseID.UnmarshalXMLAttr "Algebra (Honors) (ALG2-01)" =
      some { id := "Honors", name := "Algebra" } ∧
    CourseID.UnmarshalXMLAttr "Algebra (Honors) (ALG2-01)" ≠
      some { id := "ALG2-01", name := "Algebra (Honors)" } := by
  constructor
  · decide
  · decide

/-- Claim C8 (corrected): for every course-title string of the form
`name ++ whitespace ++ "(" ++ id ++ ")" ++ rest` — name nonempty,
newline-free and containing no `(`, not ending in whitespace; id nonempty
with no `)` and no newline — the decoder returns the contents of that FIRST
well-formed parenthesized group as the ID and the text before it (excluding
the separating whitespace) as the Name; a string containing no well-formed
parenthesized group is a format error. -/
theorem c8_first_group_amended :
    (∀ (s : String) (nm ws id rest : List Char),
      s.data = nm ++ (ws ++ '(' :: (id ++ ')' :: rest)) →
      nm ≠ [] →
      (∀ c ∈ nm, c ≠ '\n' ∧ c ≠ '(') →
      (∀ c, nm.getLast? = some c → reSpace c = false) →
      (∀ c ∈ ws, reSpace c = true) →
      id ≠ [] →
      (∀ c ∈ id, c ≠ ')' ∧ c ≠ '\n') →
      CourseID.UnmarshalXMLAttr s = some { id := ⟨id⟩, name := ⟨nm⟩ }) ∧
    (∀ s : String, ¬hasParenGroup s.data → CourseID.UnmarshalXMLAttr s = none) := by
  constructor
  · intro s nm ws id rest hdata hn hel hlast hws hid hid2
    obtain ⟨c0, nt, rfl⟩ : ∃ c0 nt, nm = c0 :: nt := by
      cases nm with
      | nil => cases hn rfl
      | cons a b => exact ⟨a, b, rfl⟩
    have hc0 : c0 ≠ '\n' := (hel c0 (List.mem_cons_self _ _)).1
    have hc0p : c0 ≠ '(' := (hel c0 (List.mem_cons_self _ _)).2
    have hlast' : ∀ c, nt.getLast? = some c → reSpace c = false := by
      intro c hc
      cases nt with
      | nil => cases hc
      | cons y ys => exact hlast c (by rw [List.getLast?_cons_cons]; exact hc)
    have ht' : tryG1 [c0] (nt ++ (ws ++ '(' :: (id ++ ')' :: rest))) =
        some (c0 :: nt, ws, id) := by
      simpa using tryG1_spec ws id rest hws hid hid2 nt [c0]
        (fun c h => hel c (List.mem_cons_of_mem _ h)) hlast'
    have hcond1 : ¬((c0 :: nt).head? = some '(' ∧ (c0 :: nt).getLast? = some ')') := by
      rintro ⟨h1, -⟩
      exact hc0p (by simpa using h1)
    have hglast : ('(' :: (id ++ [')'])).getLast? = some ')' := by
      rw [← List.cons_append, List.getLast?_concat]
    obtain ⟨i0, it, rfl⟩ : ∃ i0 it, id = i0 :: it := by
      cases id with
      | nil => cases hid rfl
      | cons a b => exact ⟨a, b, rfl⟩
    simp only [List.cons_append] at ht' hglast
    unfold CourseID.UnmarshalXMLAttr
    rw [hdata]
    simp only [List.cons_append, findSubmatch, if_neg hc0, List.append_eq]
    rw [ht']
    simp [hc0p, hcond1, hglast]
  · intro s hno
    unfold CourseID.UnmarshalXMLAttr
    cases hf : findSubmatch s.data with
    | none => simp [hf]
    | some v =>
        obtain ⟨g1, ws, inner⟩ := v
        exact absurd (findSubmatch_some s.data g1 ws inner hf) hno

/-- Witness for C8's amended claim at the claim's own concrete instance:
"Algebra II (ALG2-01)" decodes to Name "Algebra II" and ID "ALG2-01" (the
first — and only — parenthesized group). -/
theorem c8_first_group_amended_witness :
    CourseID.UnmarshalXMLAttr "Algebra II (ALG2-01)" =
      some { id := ⟨"ALG2-01".data⟩, name := ⟨"Algebra II".data⟩ } :=
  (c8_first_group_amended).1 "Algebra II (ALG2-01)"
    "Algebra II".data [' '] "ALG2-01".data [] (by decide) (by decide) (by decide)
    (by decide) (by decide) (by decide) (by decide)

/-- Claim C9 (confirmed): the derived current-period index is `Index / 2`
(truncating integer division) of the first grading period whose name equals
the current grading period's name, `0` when no name matches (a defined
fallback), and it is the index used to select every course's `CurrentMark`
(`CurrentMark = Marks[index]`). -/
theorem c9_current_index_spec (g : Gradebook) :
    (g.gradingPeriods.find? (fun p => p.name == g.currentGradingPeriod.name) = none →
      g.CurrentGradingPeriodIndex = 0) ∧
    (∀ p, g.gradingPeriods.find? (fun p => p.name == g.currentGradingPeriod.name) =
        some p → g.CurrentGradingPeriodIndex = Int.tdiv p.index 2) ∧
    (∀ g', setCurrentMarks g = some g' → ∀ i c', g'.courses.get? i = some c' →
      ∃ c, g.courses.get? i = some c ∧
        ∃ mrk, markAt c.marks g.CurrentGradingPeriodIndex = some mrk ∧
          c' = { c with currentMark := some mrk }) := by
  refine ⟨?_, ?_, ?_⟩
  · exact (currentIndexLoop_spec g.currentGradingPeriod.name g.gradingPeriods).1
  · exact (currentIndexLoop_spec g.currentGradingPeriod.name g.gradingPeriods).2
  · intro g' hg i c' hc'
    unfold setCurrentMarks at hg
    cases hloop : setMarksLoop g.CurrentGradingPeriodIndex g.courses with
    | none => rw [hloop] at hg; cases hg
    | some cs2 =>
        rw [hloop] at hg
        cases hg
        exact setMarksLoop_spec g.CurrentGradingPeriodIndex g.courses cs2 hloop i c' hc'

/-- Witness for C9 at a concrete gradebook: current period "Q3 P2" has index
5, the derived index is `5 / 2 = 2`, and the course's `CurrentMark` becomes
its third mark. -/
theorem c9_current_index_spec_witness :
    c9gb.CurrentGradingPeriodIndex = 2 ∧
    (∃ c, c9gb.courses.get? 0 = some c ∧
      ∃ mrk, markAt c.marks c9gb.CurrentGradingPeriodIndex = some mrk ∧
        ({ c9course with currentMark := some c9mark2 } : Course) =
          { c with currentMark := some mrk }) := by
  constructor
  · have h := (c9_current_index_spec c9gb).2.1 { index := 5, name := "Q3 P2" } (by decide)
    exact h.trans (by decide)
  · exact (c9_current_index_spec c9gb).2.2 c9gbAfter (by decide) 0
      { c9course with currentMark := some c9mark2 } (by decide)

/-- Claim C3 (code bug): with the older snapshot holding course "X" at
period 1 and the newer snapshot holding a different-ID course "Y" at the same
period (and no course with ID "X" anywhere in the newer snapshot), the claim
and the spec require exactly one `CourseDrop(X)`.  The code's occupied-period
branch discards the failed `findCourseSwitch` result without emitting a drop,
leaves "X" paired with nothing, and the assignment-diff stage then
dereferences the missing pairing: `CalcChangeset` panics. -/
theorem c3_drop_missing_bug :
    c3initialCS.diffCourseSets.courseDrops = [] ∧
    c3initialCS.diffCourseSets.aMap = [(1, courseX)] ∧
    alLookup c3initialCS.diffCourseSets.bMap 1 = none ∧
    CalcChangeset c3gbOld c3gbNew = .crash := by
  decide

/-- Claim C4 (code bug): `CalcChangeset` is not total.  Both gradebooks are
fully populated (every course has `CurrentMark` set) and pass the semester
guard ("Q2" on both sides), yet the course at period 2 changed stable ID from
"MATH201" to "ENG101" with "MATH201" absent from the newer snapshot, so the
older course keeps no pairing, and `diffCourseAssignments` dereferences the
absent pairing: the run panics instead of returning a Changeset. -/
theorem c4_crash_bug :
    (gradebookSemestersMatch c4gbOld c4gbNew).2.2 = true ∧
    c4gbOld.courses.all (fun c => c.currentMark.isSome) = true ∧
    c4gbNew.courses.all (fun c => c.currentMark.isSome) = true ∧
    CalcChangeset c4gbOld c4gbNew = .crash := by
  decide

end Govue
